import Mathlib

/-!
# Verification of the smartSPMS timetable allocator and auto-enrollment logic

Shallow embedding of the scheduling / enrollment core of `src/app.py`
(a Flask school-management backend) together with proofs of the spec's
testable properties.

Modelling conventions:
* Wall-clock times ("HH:MM" strings in the source, always converted through
  `time_to_minutes` before any comparison) are represented directly as minute
  offsets (`Nat`); the string format and minute offsets are in bijection for
  the well-formed values the system produces.
* SQLAlchemy rows become Lean structures.  Nullable integer foreign keys
  become `Option Nat` (a stored id is always a positive autoincrement value,
  so Python's truthiness test `if r.teacher_id:` coincides with `isSome`).
  Nullable string columns become `String`, with `""` standing for NULL
  (Python treats both `None` and `""` as falsy in every test the embedded
  code performs on them).
* Python dicts keyed by day (the occupancy indexes) are flattened to lists of
  records carrying their day; the only operations performed on them are
  per-day membership scans (`has_conflict`) and appends (`record_block`),
  for which the two representations coincide.
* The in-request SQLAlchemy session is modelled by explicit state passing;
  changes are applied to the persisted database only at `session.commit()`
  (an error return before commit leaves the persisted state unchanged,
  matching SQLAlchemy's rollback-on-close semantics).
-/

namespace SmartSPMS

/-! ## Data model (ORM classes of `src/app.py`) -/

/-- `Subject` row: columns used by scheduling / enrollment
(`name`, `category`, `level_band`, `track`, `grade_min`, `grade_max`,
`teacher_id`).  Grading-weight columns are never read by the embedded
logic and are omitted. -/
structure Subject where
  id : Nat
  name : String
  category : String
  level_band : String
  track : String
  grade_min : Option Nat
  grade_max : Option Nat
  teacher_id : Option Nat
deriving DecidableEq, Repr

/-- `Section` row: columns used by the allocator and enrollment. -/
structure Section where
  id : Nat
  name : String
  level_band : String
  grade_level : String
  track : String
deriving DecidableEq, Repr

/-- `Room` row (capacity-less resource; `building`/`level` unused by logic). -/
structure Room where
  id : Nat
  name : String
deriving DecidableEq, Repr

/-- `Student` row: columns used by auto-enrollment. -/
structure Student where
  id : Nat
  grade_level : String
  section_id : Option Nat
deriving DecidableEq, Repr

/-- `StudentSubject` linking row created by auto-enrollment. -/
structure StudentSubject where
  student_id : Nat
  subject_id : Nat
  teacher_id : Option Nat
  section_id : Option Nat
  active : Nat
deriving DecidableEq, Repr

/-- `ScheduleEntry` row (`schedules` table).  `section_id`, `subject_id`,
`day_of_week`, `start_time`, `end_time` are NOT NULL; `teacher_id` and
`room_id` are nullable.  `notes` is always `None` for allocator-created
rows and is omitted. -/
structure Entry where
  section_id : Nat
  subject_id : Nat
  teacher_id : Option Nat
  room_id : Option Nat
  day : Nat
  start : Nat
  stop : Nat
deriving DecidableEq, Repr

/-! ## Time slots (`generate_slots`) -/

/-- `generate_slots`: one slot per whole hour in 07:00-12:00 and 13:00-17:00
for each day 0-4 (plus 5 when Saturday is included).  Times in minutes. -/
def generate_slots (include_saturday : Bool) : List (Nat × Nat × Nat) :=
  let days := List.range (5 + (if include_saturday then 1 else 0))
  let hour_ranges : List (Nat × Nat) := [(7, 12), (13, 17)]
  days.flatMap (fun day =>
    hour_ranges.flatMap (fun r =>
      (List.range (r.2 - r.1)).map (fun i =>
        (day, (r.1 + i) * 60, (r.1 + i + 1) * 60))))

/-! ## Load-to-blocks splitter (`split_hours_into_blocks`) -/

/-- `split_hours_into_blocks`: fixed table splitting a weekly-hour load into
session block lengths. -/
def split_hours_into_blocks (hours : Int) : List Int :=
  if hours ≥ 5 then [3, hours - 3]
  else if hours = 4 then [2, 2]
  else if hours = 3 then [2, 1]
  else if hours = 2 then [2]
  else [1]

/-! ## Weekly-hour lookup (`SUBJECT_WEEKLY_HOURS`, `subject_weekly_hours`) -/

/-- `SUBJECT_WEEKLY_HOURS`: static name → weekly-hours table. -/
def SUBJECT_WEEKLY_HOURS : List (String × Int) :=
  [("Filipino 7", 4), ("Filipino 8", 4), ("Filipino 9", 4), ("Filipino 10", 4),
   ("English 7", 5), ("English 8", 5), ("English 9", 5), ("English 10", 5),
   ("Araling Panlipunan 7", 4), ("Araling Panlipunan 8", 4),
   ("Araling Panlipunan 9", 4), ("Araling Panlipunan 10", 4),
   ("Edukasyon sa Pagpapakatao 7", 4), ("Edukasyon sa Pagpapakatao 8", 4),
   ("Edukasyon sa Pagpapakatao 9", 4), ("Edukasyon sa Pagpapakatao 10", 4),
   ("Mathematics 7", 5), ("Mathematics 8", 5), ("Mathematics 9", 5),
   ("Mathematics 10", 5),
   ("Science 7", 5), ("Science 8", 5), ("Science 9", 5), ("Science 10", 5),
   ("MAPEH 7", 4), ("MAPEH 8", 4), ("MAPEH 9", 4), ("MAPEH 10", 4),
   ("TLE 7", 5), ("TLE 8", 5), ("TLE 9", 5), ("TLE 10", 5),
   ("Oral Communication", 3), ("Reading and Writing", 3),
   ("Komunikasyon at Pananaliksik", 3), ("General Mathematics", 3),
   ("Statistics and Probability", 3), ("Earth and Life Science", 3),
   ("Physical Education and Health", 3),
   ("Understanding Culture, Society, and Politics", 3),
   ("Empowerment Technologies", 4), ("Entrepreneurship", 4),
   ("Practical Research 1", 4), ("Practical Research 2", 4),
   ("Inquiries, Investigations, and Immersion", 4)]

/-- `subject_weekly_hours`: table lookup by name, with fallback by
band/category. -/
def subject_weekly_hours (subj : Subject) : Int :=
  match SUBJECT_WEEKLY_HOURS.lookup subj.name with
  | some h => h
  | none =>
    if subj.level_band = "JHS" then 4
    else if subj.level_band = "SHS" then
      (if subj.category = "Core" then 3 else 4)
    else 3

/-! ## Grade-string parsing (`parse_band_from_grade`, `parse_grade_number`)

Python extracts the leftmost maximal digit run via `re.search(r"(\d+)")`
and converts it with `int`. -/

/-- Leftmost maximal run of digit characters, if any
(the `re.search` pattern match). -/
def first_digit_run : List Char → Option (List Char)
  | [] => none
  | c :: rest =>
    if c.isDigit then some (c :: rest.takeWhile Char.isDigit)
    else first_digit_run rest

/-- Decimal value of a digit run (Python `int(...)`). -/
def digits_to_nat (ds : List Char) : Nat :=
  ds.foldl (fun a c => a * 10 + (c.toNat - Char.toNat '0')) 0

/-- `parse_band_from_grade`: JHS for grades 7-10, SHS for 11-12, else none.
The source's emptiness guard is subsumed: an empty string has no digit run. -/
def parse_band_from_grade (grade_str : String) : Option String :=
  match first_digit_run grade_str.data with
  | none => none
  | some ds =>
    let g := digits_to_nat ds
    if 7 ≤ g ∧ g ≤ 10 then some "JHS"
    else if 11 ≤ g ∧ g ≤ 12 then some "SHS"
    else none

/-- `parse_grade_number`: numeric grade from the grade-level string. -/
def parse_grade_number (grade_str : String) : Option Nat :=
  match first_digit_run grade_str.data with
  | none => none
  | some ds => some (digits_to_nat ds)

/-! ## Catalog filters -/

/-- `Subject.grade_min == None or Subject.grade_min <= grade_num`. -/
def grade_min_ok (s : Subject) (g : Nat) : Bool :=
  match s.grade_min with
  | none => true
  | some m => m ≤ g

/-- `Subject.grade_max == None or Subject.grade_max >= grade_num`. -/
def grade_max_ok (s : Subject) (g : Nat) : Bool :=
  match s.grade_max with
  | none => true
  | some m => g ≤ m

/-- The band/grade-range catalog query shared by `subjects_for_section` and
`auto_assign_subjects_for_student`. -/
def eligible_query (catalog : List Subject) (b : String) (g : Nat) :
    List Subject :=
  catalog.filter (fun s => s.level_band == b && grade_min_ok s g && grade_max_ok s g)

/-- `subjects_for_section`: band from the section's `level_band` column or,
when that is NULL/empty, parsed from its grade-level string; the grade-range
filter applies only when a (nonzero) numeric grade parses. -/
def subjects_for_section (catalog : List Subject) (s : Section) :
    List Subject :=
  let band := if s.level_band ≠ "" then some s.level_band
              else parse_band_from_grade s.grade_level
  match band with
  | none => []
  | some b =>
    let q := catalog.filter (fun subj => subj.level_band == b)
    match parse_grade_number s.grade_level with
    | some g =>
      if g ≠ 0 then q.filter (fun subj => grade_min_ok subj g && grade_max_ok subj g)
      else q
    | none => q

/-! ## Auto-enrollment (`auto_assign_subjects_for_student`) -/

/-- The track the enrollment loop filters on: the section's track when a
section with a nonempty track is supplied, otherwise unset (`""`). -/
def section_track : Option Section → String
  | some sec => sec.track
  | none => ""

/-- `exists` probe: is a `(student, subject)` pair already linked? -/
def link_exists (links : List StudentSubject) (student_id subject_id : Nat) :
    Bool :=
  links.any (fun l => l.student_id == student_id && l.subject_id == subject_id)

/-- The `StudentSubject` row the enrollment loop inserts. -/
def mk_link (student : Student) (section? : Option Section) (subj : Subject) :
    StudentSubject :=
  { student_id := student.id
    subject_id := subj.id
    teacher_id := subj.teacher_id
    section_id := match section? with
                  | some sec => some sec.id
                  | none => student.section_id
    active := 1 }

/-- Negation of the loop's skip test
`if subj.track and track and subj.track != track: continue`. -/
def track_ok (track : String) (subj : Subject) : Bool :=
  !((subj.track != "") && (track != "") && (subj.track != track))

/-- One iteration of the enrollment loop over an eligible subject. -/
def enroll_step (student : Student) (section? : Option Section)
    (track : String) (acc : List StudentSubject × Nat) (subj : Subject) :
    List StudentSubject × Nat :=
  if !(track_ok track subj) then acc
  else if link_exists acc.1 student.id subj.id then acc
  else (acc.1 ++ [mk_link student section? subj], acc.2 + 1)

/-- `auto_assign_subjects_for_student`: returns the updated `StudentSubject`
table (session state after the loop) and the `created` count the function
returns.  The guard `if not band or not grade_num` also fires on a parsed
grade of `0` (Python falsiness). -/
def auto_assign_subjects_for_student (catalog : List Subject)
    (links : List StudentSubject) (student : Student)
    (section? : Option Section) : List StudentSubject × Nat :=
  match parse_band_from_grade student.grade_level,
        parse_grade_number student.grade_level with
  | some b, some g =>
    if g = 0 then (links, 0)
    else
      (eligible_query catalog b g).foldl
        (enroll_step student section? (section_track section?)) (links, 0)
  | _, _ => (links, 0)

/-- The set of subjects the enrollment run links (its filter chain, used to
state C8): band/grade-range query, then the track test. -/
def eligible_subjects (catalog : List Subject) (student : Student)
    (section? : Option Section) : List Subject :=
  match parse_band_from_grade student.grade_level,
        parse_grade_number student.grade_level with
  | some b, some g =>
    if g = 0 then []
    else (eligible_query catalog b g).filter (track_ok (section_track section?))
  | _, _ => []

/-! ## Enrollment lemmas -/

lemma enroll_foldl_char (student : Student) (section? : Option Section)
    (track : String) :
    ∀ (L : List Subject) (acc : List StudentSubject) (n : Nat),
      (L.map Subject.id).Nodup →
      (∀ l ∈ acc, l.student_id = student.id → l.subject_id ∉ L.map Subject.id) →
      L.foldl (enroll_step student section? track) (acc, n)
        = (acc ++ (L.filter (track_ok track)).map (mk_link student section?),
           n + (L.filter (track_ok track)).length) := by
  intro L
  induction L with
  | nil => intro acc n _ _; simp
  | cons subj rest ih =>
    intro acc n hnd hacc
    simp only [List.map_cons, List.nodup_cons] at hnd
    obtain ⟨hid, hndr⟩ := hnd
    by_cases htr : track_ok track subj = true
    · have hle : link_exists acc student.id subj.id = false := by
        rw [link_exists, List.any_eq_false]
        intro l hl
        simp only [Bool.and_eq_true, beq_iff_eq, not_and]
        intro hs hsub
        exact absurd (by simp [hsub] : l.subject_id ∈ subj.id :: rest.map Subject.id)
          (hacc l hl hs)
      have hstep : enroll_step student section? track (acc, n) subj
          = (acc ++ [mk_link student section? subj], n + 1) := by
        simp [enroll_step, htr, hle]
      rw [List.foldl_cons, hstep, ih (acc ++ [mk_link student section? subj]) (n + 1) hndr ?_]
      · simp [List.filter_cons, htr, List.append_assoc, Nat.add_assoc, Nat.add_comm 1]
      · intro l hl hs
        rcases List.mem_append.1 hl with h | h
        · intro hmem
          exact hacc l h hs (List.mem_cons_of_mem _ hmem)
        · simp only [List.mem_singleton] at h
          subst h
          simpa [mk_link] using hid
    · have hstep : enroll_step student section? track (acc, n) subj = (acc, n) := by
        simp [enroll_step, htr]
      rw [List.foldl_cons, hstep, ih acc n hndr ?_]
      · simp [List.filter_cons, htr]
      · intro l hl hs
        intro hmem
        exact hacc l hl hs (List.mem_cons_of_mem _ hmem)

lemma enroll_foldl_mono (student : Student) (section? : Option Section)
    (track : String) :
    ∀ (L : List Subject) (acc : List StudentSubject × Nat)
      (l : StudentSubject), l ∈ acc.1 →
      l ∈ (L.foldl (enroll_step student section? track) acc).1 := by
  intro L
  induction L with
  | nil => intro acc l hl; simpa using hl
  | cons subj rest ih =>
    intro acc l hl
    rw [List.foldl_cons]
    apply ih
    unfold enroll_step
    split
    · exact hl
    · split
      · exact hl
      · exact List.mem_append_left _ hl

lemma enroll_foldl_covers (student : Student) (section? : Option Section)
    (track : String) :
    ∀ (L : List Subject) (acc : List StudentSubject × Nat),
      ∀ subj ∈ L, track_ok track subj = true →
      ∃ l ∈ (L.foldl (enroll_step student section? track) acc).1,
        l.student_id = student.id ∧ l.subject_id = subj.id := by
  intro L
  induction L with
  | nil => intro acc subj h; simp at h
  | cons hd rest ih =>
    intro acc subj hmem htr
    rcases List.mem_cons.1 hmem with heq | hrest
    · subst heq
      rw [List.foldl_cons]
      by_cases hle : link_exists acc.1 student.id subj.id = true
      · rw [link_exists, List.any_eq_true] at hle
        obtain ⟨l, hl, hp⟩ := hle
        simp only [Bool.and_eq_true, beq_iff_eq] at hp
        refine ⟨l, ?_, hp.1, hp.2⟩
        apply enroll_foldl_mono
        unfold enroll_step
        split
        · exact hl
        · split
          · exact hl
          · exact List.mem_append_left _ hl
      · refine ⟨mk_link student section? subj, ?_, rfl, rfl⟩
        apply enroll_foldl_mono
        unfold enroll_step
        simp only [htr, Bool.not_true, Bool.false_eq_true, if_false,
          Bool.eq_false_iff]
        rw [if_neg (by simpa using hle)]
        exact List.mem_append_right _ (List.mem_singleton.2 rfl)
    · rw [List.foldl_cons]
      exact ih _ subj hrest htr

lemma enroll_foldl_stable (student : Student) (section? : Option Section)
    (track : String) :
    ∀ (L : List Subject) (acc : List StudentSubject × Nat),
      (∀ subj ∈ L, track_ok track subj = true →
        link_exists acc.1 student.id subj.id = true) →
      L.foldl (enroll_step student section? track) acc = acc := by
  intro L
  induction L with
  | nil => intro acc _; simp
  | cons hd rest ih =>
    intro acc hall
    rw [List.foldl_cons]
    have hstep : enroll_step student section? track acc hd = acc := by
      unfold enroll_step
      by_cases htr : track_ok track hd = true
      · rw [if_neg (by simp [htr]), if_pos (hall hd (List.mem_cons_self _ _) htr)]
      · rw [if_pos (by simpa using htr)]
    rw [hstep]
    exact ih acc (fun subj h => hall subj (List.mem_cons_of_mem _ h))

/-! ## Parse facts for concrete grade strings -/

lemma parse_band_grade9 : parse_band_from_grade "Grade 9" = some "JHS" := by
  decide

lemma parse_num_grade9 : parse_grade_number "Grade 9" = some 9 := by
  decide

lemma track_ok_empty (subj : Subject) : track_ok "" subj = true := by
  simp [track_ok]

/-! ## Claim C1: the load-to-blocks splitter -/

/-- C1 counterexample: the claim asserts that for every integer load the
blocks contain no entry greater than 3 and sum to the load; at load 7 the
splitter returns `[3, 4]` (a block of 4 > 3), and at load 0 it returns `[1]`
whose sum is not 0. -/
theorem C1_counterexample :
    (split_hours_into_blocks 7 = [3, 4] ∧
      ∃ b ∈ split_hours_into_blocks 7, 3 < b) ∧
    (split_hours_into_blocks 0 = [1] ∧
      (split_hours_into_blocks 0).sum ≠ 0) := by
  refine ⟨⟨by decide, 4, by decide, by decide⟩, by decide, by decide⟩

/-- C1 (amended): the splitter follows the fixed table for every integer
load L (L ≥ 5 → [3, L−3]; 4 → [2,2]; 3 → [2,1]; 2 → [2]; otherwise [1]);
consequently the blocks sum to exactly L whenever L ≥ 2, and no block
exceeds 3 whenever L ≤ 6 (for L ≥ 7 the second block L−3 exceeds 3, and
for L ≤ 1 the result is [1]). -/
theorem C1_split_table (L : Int) :
    (5 ≤ L → split_hours_into_blocks L = [3, L - 3]) ∧
    (L = 4 → split_hours_into_blocks L = [2, 2]) ∧
    (L = 3 → split_hours_into_blocks L = [2, 1]) ∧
    (L = 2 → split_hours_into_blocks L = [2]) ∧
    (L < 2 → split_hours_into_blocks L = [1]) ∧
    (2 ≤ L → (split_hours_into_blocks L).sum = L) ∧
    (L ≤ 6 → ∀ b ∈ split_hours_into_blocks L, b ≤ 3) := by
  unfold split_hours_into_blocks
  refine ⟨?_, ?_, ?_, ?_, ?_, ?_, ?_⟩ <;> intro h
  · rw [if_pos h]
  · subst h; norm_num
  · subst h; norm_num
  · subst h; norm_num
  · rw [if_neg (by omega), if_neg (by omega), if_neg (by omega),
      if_neg (by omega)]
  · split_ifs with h1 h2 h3 h4 <;> simp <;> omega
  · split_ifs with h1 h2 h3 h4 <;> intro b hb <;> simp at hb <;> omega

/-- C1 witness: the amended table facts evaluated at load 5. -/
theorem C1_split_table_witness :
    split_hours_into_blocks 5 = [3, 5 - 3] ∧
    (split_hours_into_blocks 5).sum = 5 ∧
    ∀ b ∈ split_hours_into_blocks 5, b ≤ 3 :=
  ⟨(C1_split_table 5).1 (by norm_num),
   (C1_split_table 5).2.2.2.2.2.1 (by norm_num),
   (C1_split_table 5).2.2.2.2.2.2 (by norm_num)⟩

/-! ## Claim C7: weekly-hours fallback -/

/-- C7: for a subject whose name is absent from `SUBJECT_WEEKLY_HOURS`,
the load is 4 for the junior band, 3 for senior Core, and 4 for senior
non-Core. -/
theorem C7_fallback_hours (subj : Subject)
    (h : SUBJECT_WEEKLY_HOURS.lookup subj.name = none) :
    (subj.level_band = "JHS" → subject_weekly_hours subj = 4) ∧
    (subj.level_band = "SHS" → subj.category = "Core" →
      subject_weekly_hours subj = 3) ∧
    (subj.level_band = "SHS" → subj.category ≠ "Core" →
      subject_weekly_hours subj = 4) := by
  unfold subject_weekly_hours
  rw [h]
  refine ⟨fun hb => ?_, fun hb hc => ?_, fun hb hc => ?_⟩
  · rw [if_pos hb]
  · rw [if_neg (by rw [hb]; decide), if_pos hb, if_pos hc]
  · rw [if_neg (by rw [hb]; decide), if_pos hb, if_neg hc]

/-- C7 witness: a senior-band non-Core subject with a name outside the
static table gets 4 weekly hours. -/
theorem C7_fallback_hours_witness :
    subject_weekly_hours ⟨1, "Custom Elective", "Applied", "SHS", "", none, none, none⟩ = 4 :=
  (C7_fallback_hours ⟨1, "Custom Elective", "Applied", "SHS", "", none, none, none⟩
    (by decide)).2.2 (by decide) (by decide)

/-! ## Claim C8: the auto-enrollment filter -/

/-- C8: on a state with no existing links for the student and a
duplicate-free catalog, auto-enrollment creates exactly one link per
subject passing the band / grade-range / track filter chain
(`eligible_subjects`), in catalog order; and for grade-level "Grade 9"
with no section track, that filter chain is exactly "junior band and
grade range brackets 9", regardless of subject track values. -/
theorem C8_enrollment_filter (catalog : List Subject)
    (links : List StudentSubject) (student : Student)
    (section? : Option Section)
    (h1 : ∀ l ∈ links, l.student_id ≠ student.id)
    (h2 : (catalog.map Subject.id).Nodup) :
    auto_assign_subjects_for_student catalog links student section?
      = (links ++ (eligible_subjects catalog student section?).map
            (mk_link student section?),
         (eligible_subjects catalog student section?).length) ∧
    (student.grade_level = "Grade 9" → section_track section? = "" →
      eligible_subjects catalog student section?
        = catalog.filter
            (fun s => s.level_band == "JHS" && grade_min_ok s 9 && grade_max_ok s 9)) := by
  constructor
  · unfold auto_assign_subjects_for_student eligible_subjects
    cases hb : parse_band_from_grade student.grade_level with
    | none => simp
    | some b =>
      cases hg : parse_grade_number student.grade_level with
      | none => simp
      | some g =>
        by_cases h0 : g = 0
        · simp [h0]
        · simp only [h0, if_false]
          rw [enroll_foldl_char student section? (section_track section?)
            (eligible_query catalog b g) links 0
            (h2.sublist (List.Sublist.map _ (List.filter_sublist _)))
            (fun l hl hs => absurd hs (h1 l hl))]
          rw [Nat.zero_add]
  · intro h9 htr
    unfold eligible_subjects
    rw [h9, parse_band_grade9, parse_num_grade9]
    simp only [htr]
    rw [if_neg (by norm_num)]
    rw [List.filter_eq_self.2 (fun s _ => track_ok_empty s)]
    rfl

/-- C8 witness: concrete two-subject catalog, clean state, student
"Grade 9" with no section: exactly the junior-band subject is enrolled. -/
theorem C8_enrollment_filter_witness :
    auto_assign_subjects_for_student
        [⟨1, "Custom A", "Core", "JHS", "STEM", some 7, some 10, none⟩,
         ⟨2, "Custom B", "Core", "SHS", "", some 11, some 12, none⟩]
        [] ⟨5, "Grade 9", none⟩ none
      = ([] ++ (eligible_subjects
            [⟨1, "Custom A", "Core", "JHS", "STEM", some 7, some 10, none⟩,
             ⟨2, "Custom B", "Core", "SHS", "", some 11, some 12, none⟩]
            ⟨5, "Grade 9", none⟩ none).map (mk_link ⟨5, "Grade 9", none⟩ none),
         (eligible_subjects
            [⟨1, "Custom A", "Core", "JHS", "STEM", some 7, some 10, none⟩,
             ⟨2, "Custom B", "Core", "SHS", "", some 11, some 12, none⟩]
            ⟨5, "Grade 9", none⟩ none).length) ∧
    ((⟨5, "Grade 9", none⟩ : Student).grade_level = "Grade 9" →
      section_track none = "" →
      eligible_subjects
          [⟨1, "Custom A", "Core", "JHS", "STEM", some 7, some 10, none⟩,
           ⟨2, "Custom B", "Core", "SHS", "", some 11, some 12, none⟩]
          ⟨5, "Grade 9", none⟩ none
        = [⟨1, "Custom A", "Core", "JHS", "STEM", some 7, some 10, none⟩,
           ⟨2, "Custom B", "Core", "SHS", "", some 11, some 12, none⟩].filter
            (fun s => s.level_band == "JHS" && grade_min_ok s 9 && grade_max_ok s 9)) :=
  C8_enrollment_filter _ [] ⟨5, "Grade 9", none⟩ none
    (by intro l hl; simp at hl) (by decide)

/-! ## Claim C9: enrollment idempotence -/

/-- C9: running auto-enrollment a second time over the state left by a
first run creates zero new linking records and leaves the link table
unchanged. -/
theorem C9_enrollment_idempotent (catalog : List Subject)
    (links : List StudentSubject) (student : Student)
    (section? : Option Section) :
    auto_assign_subjects_for_student catalog
        (auto_assign_subjects_for_student catalog links student section?).1
        student section?
      = ((auto_assign_subjects_for_student catalog links student section?).1,
         0) := by
  unfold auto_assign_subjects_for_student
  cases hb : parse_band_from_grade student.grade_level with
  | none => simp
  | some b =>
    cases hg : parse_grade_number student.grade_level with
    | none => simp
    | some g =>
      by_cases h0 : g = 0
      · simp [h0]
      · simp only [h0, if_false]
        apply enroll_foldl_stable
        intro subj hmem htr
        obtain ⟨l, hl, hs, hsub⟩ :=
          enroll_foldl_covers student section? (section_track section?)
            (eligible_query catalog b g) (links, 0) subj hmem htr
        rw [link_exists, List.any_eq_true]
        exact ⟨l, hl, by simp [hs, hsub]⟩

/-! ## Occupancy indexes (`has_conflict`, `record_block`) -/

/-- One interval held in an occupancy index: `(day, start, end, owner-key)`.
The source keeps a dict day → list of `(start, end, key)`; flattened here
(see module comment). -/
structure OccItem where
  day : Nat
  start : Nat
  stop : Nat
  key : Option Nat
deriving DecidableEq, Repr

/-- An occupancy index (section, teacher or room). -/
abbrev Occ := List OccItem

/-- The owner filter of `has_conflict`: intervals whose key differs from the
probe key are skipped, unless either key is unset. -/
def key_applies (key k : Option Nat) : Bool :=
  match key, k with
  | some kv, some kk => kk == kv
  | _, _ => true

/-- `has_conflict`: does `(day, [start, stop))` overlap some interval of the
index owned by `key` (or by an unset owner)?  Interval test is the source's
`not (end_m <= s or start_m >= e)` in minutes. -/
def has_conflict (entries : Occ) (day start stop : Nat) (key : Option Nat) :
    Bool :=
  entries.any (fun q =>
    q.day == day && key_applies key q.key &&
      !(decide (stop ≤ q.start) || decide (start ≥ q.stop)))

/-- `record_block`: append an interval to an occupancy index. -/
def record_block (entries : Occ) (day start stop : Nat) (key : Option Nat) :
    Occ :=
  entries ++ [⟨day, start, stop, key⟩]

/-- One iteration of the occupancy preload loop: index a persisted entry
not belonging to the section being regenerated into the section / teacher /
room occupancy maps (teacher and room only when set). -/
def init_step (sid : Nat) (acc : Occ × Occ × Occ) (r : Entry) :
    Occ × Occ × Occ :=
  if r.section_id == sid then acc
  else
    (record_block acc.1 r.day r.start r.stop (some r.section_id),
     (match r.teacher_id with
      | some t => record_block acc.2.1 r.day r.start r.stop (some t)
      | none => acc.2.1),
     (match r.room_id with
      | some rm => record_block acc.2.2 r.day r.start r.stop (some rm)
      | none => acc.2.2))

/-- The preload loop of `auto_generate_schedule` over all persisted
schedule entries. -/
def init_occs (sid : Nat) (existing : List Entry) : Occ × Occ × Occ :=
  existing.foldl (init_step sid) ([], [], [])

/-! ## Slot grouping (`slots_by_day`) -/

/-- `slots_by_day.setdefault(day, []).append((start, end))`: insertion-order
grouping of the generated slots by day. -/
def add_slot (m : List (Nat × List (Nat × Nat))) (day start stop : Nat) :
    List (Nat × List (Nat × Nat)) :=
  match m with
  | [] => [(day, [(start, stop)])]
  | (d, l) :: rest =>
    if d == day then (d, l ++ [(start, stop)]) :: rest
    else (d, l) :: add_slot rest day start stop

/-- Group the generated slots by day, preserving dict insertion order. -/
def slots_by_day (slots : List (Nat × Nat × Nat)) :
    List (Nat × List (Nat × Nat)) :=
  slots.foldl (fun m t => add_slot m t.1 t.2.1 t.2.2) []

/-! ## Greedy placement search

The inner loops of `auto_generate_schedule`: for a block of length `blk`,
scan days in `slots_by_day` order and, within a day, contiguous runs of
`blk` slots by ascending start index; the first run passing the section
check, the teacher check (when the subject has a fixed teacher), and for
which some room is free (first free room in the canonical room order wins)
is committed. -/

/-- Start time of the run beginning at slot index `idx`. -/
def run_start (day_slots : List (Nat × Nat)) (idx : Nat) : Nat :=
  (day_slots.getD idx (0, 0)).1

/-- End time of the length-`blk` run beginning at slot index `idx`
(the source's `day_slots[idx + blk - 1][1]`). -/
def run_stop (day_slots : List (Nat × Nat)) (idx blk : Nat) : Nat :=
  (day_slots.getD (idx + blk - 1) (0, 0)).2

/-- The teacher-conflict test, performed only when the subject has a fixed
teacher (`if teacher_id and has_conflict(...)`). -/
def teacher_conflict (teacher_occ : Occ) (tid : Option Nat)
    (day start stop : Nat) : Bool :=
  match tid with
  | some t => has_conflict teacher_occ day start stop (some t)
  | none => false

/-- Scan the index list of candidate runs within one day; return the first
run passing all three checks together with its chosen room. -/
def find_run (so to_ ro : Occ) (sid : Nat) (tid : Option Nat)
    (rooms : List Room) (day : Nat) (day_slots : List (Nat × Nat))
    (blk : Nat) : List Nat → Option (Nat × Nat × Room)
  | [] => none
  | idx :: rest =>
    let start := run_start day_slots idx
    let stop := run_stop day_slots idx blk
    if has_conflict so day start stop (some sid) then
      find_run so to_ ro sid tid rooms day day_slots blk rest
    else if teacher_conflict to_ tid day start stop then
      find_run so to_ ro sid tid rooms day day_slots blk rest
    else
      match rooms.find? (fun room => !has_conflict ro day start stop (some room.id)) with
      | some room => some (start, stop, room)
      | none => find_run so to_ ro sid tid rooms day day_slots blk rest

/-- Scan the days in `slots_by_day` order; skip days with fewer than `blk`
slots; return the first placement found. -/
def find_day (so to_ ro : Occ) (sid : Nat) (tid : Option Nat)
    (rooms : List Room) (blk : Nat) :
    List (Nat × List (Nat × Nat)) → Option (Nat × Nat × Nat × Room)
  | [] => none
  | (day, day_slots) :: rest =>
    if day_slots.length < blk then
      find_day so to_ ro sid tid rooms blk rest
    else
      match find_run so to_ ro sid tid rooms day day_slots blk
          (List.range (day_slots.length - blk + 1)) with
      | some (start, stop, room) => some (day, start, stop, room)
      | none => find_day so to_ ro sid tid rooms blk rest

/-! ## Allocator state and loop -/

/-- A `created` result record (subject name, day, start/end, room name). -/
structure Created where
  subject : String
  day : Nat
  start : Nat
  stop : Nat
  room : String
deriving DecidableEq, Repr

/-- A `failed` result record (subject name, requested block length). -/
structure Failure where
  subject : String
  hours : Nat
deriving DecidableEq, Repr

/-- Run-scoped allocator state: the three occupancy indexes, the entries
added to the session, and the two result lists. -/
structure AllocState where
  section_occ : Occ
  teacher_occ : Occ
  room_occ : Occ
  new_entries : List Entry
  created : List Created
  failures : List Failure
deriving DecidableEq, Repr

/-- Attempt placement of one block of one subject: on success commit the
entry and record it in all three occupancy indexes; otherwise append a
failure record. -/
def alloc_block (sid : Nat) (rooms : List Room)
    (sbd : List (Nat × List (Nat × Nat))) (subj : Subject) (blk : Nat)
    (st : AllocState) : AllocState :=
  match find_day st.section_occ st.teacher_occ st.room_occ sid
      subj.teacher_id rooms blk sbd with
  | none => { st with failures := st.failures ++ [⟨subj.name, blk⟩] }
  | some (day, start, stop, room) =>
    { section_occ := record_block st.section_occ day start stop (some sid)
      teacher_occ :=
        match subj.teacher_id with
        | some t => record_block st.teacher_occ day start stop (some t)
        | none => st.teacher_occ
      room_occ := record_block st.room_occ day start stop (some room.id)
      new_entries := st.new_entries ++
        [⟨sid, subj.id, subj.teacher_id, some room.id, day, start, stop⟩]
      created := st.created ++ [⟨subj.name, day, start, stop, room.name⟩]
      failures := st.failures }

/-- Process one subject: determine its weekly hours, split them into blocks,
and attempt each block in order.  Block lengths are positive (the splitter
never emits a value below 1 on the loads `subject_weekly_hours` produces),
so the `Int.toNat` coercion is faithful. -/
def alloc_subject (sid : Nat) (rooms : List Room)
    (sbd : List (Nat × List (Nat × Nat))) (st : AllocState)
    (subj : Subject) : AllocState :=
  let blocks := (split_hours_into_blocks (subject_weekly_hours subj)).map Int.toNat
  blocks.foldl (fun st blk => alloc_block sid rooms sbd subj blk st) st

/-- The allocator's placement loop (`auto_generate_schedule` from the
occupancy preload to the end of the subject loop). -/
def alloc_run (sec : Section) (rooms : List Room) (subjects : List Subject)
    (existing : List Entry) (allow_saturday : Bool) : AllocState :=
  let occs := init_occs sec.id existing
  let sbd := slots_by_day (generate_slots allow_saturday)
  subjects.foldl (alloc_subject sec.id rooms sbd)
    ⟨occs.1, occs.2.1, occs.2.2, [], [], []⟩

/-! ## Characterizing the greedy search -/

/-- A candidate run passes when the section check, the teacher check and the
room scan all succeed. -/
def idx_passes (so to_ ro : Occ) (sid : Nat) (tid : Option Nat)
    (rooms : List Room) (day : Nat) (day_slots : List (Nat × Nat))
    (blk idx : Nat) : Bool :=
  !has_conflict so day (run_start day_slots idx) (run_stop day_slots idx blk)
      (some sid) &&
  !teacher_conflict to_ tid day (run_start day_slots idx)
      (run_stop day_slots idx blk) &&
  rooms.any (fun room =>
    !has_conflict ro day (run_start day_slots idx) (run_stop day_slots idx blk)
      (some room.id))

lemma find_run_none (so to_ ro : Occ) (sid : Nat) (tid : Option Nat)
    (rooms : List Room) (day : Nat) (ds : List (Nat × Nat)) (blk : Nat) :
    ∀ idxs, find_run so to_ ro sid tid rooms day ds blk idxs = none →
      ∀ idx ∈ idxs, idx_passes so to_ ro sid tid rooms day ds blk idx = false := by
  intro idxs
  induction idxs with
  | nil => intro _ idx h; simp at h
  | cons i rest ih =>
    intro hnone idx hmem
    unfold find_run at hnone
    rcases List.mem_cons.1 hmem with heq | hrest
    · subst heq
      unfold idx_passes
      by_cases hsec : has_conflict so day (run_start ds idx) (run_stop ds idx blk) (some sid) = true
      · simp [hsec]
      · rw [if_neg hsec] at hnone
        by_cases htea : teacher_conflict to_ tid day (run_start ds idx) (run_stop ds idx blk) = true
        · simp [htea]
        · rw [if_neg htea] at hnone
          cases hfind : rooms.find? (fun room =>
              !has_conflict ro day (run_start ds idx) (run_stop ds idx blk) (some room.id)) with
          | some room => rw [hfind] at hnone; exact absurd hnone (by simp)
          | none =>
            have : rooms.any (fun room =>
                !has_conflict ro day (run_start ds idx) (run_stop ds idx blk) (some room.id)) = false := by
              rw [List.any_eq_false]
              intro room hroom
              have := List.find?_eq_none.1 hfind room hroom
              simpa using this
            simp [this]
    · by_cases hsec : has_conflict so day (run_start ds i) (run_stop ds i blk) (some sid) = true
      · rw [if_pos hsec] at hnone; exact ih hnone idx hrest
      · rw [if_neg hsec] at hnone
        by_cases htea : teacher_conflict to_ tid day (run_start ds i) (run_stop ds i blk) = true
        · rw [if_pos htea] at hnone; exact ih hnone idx hrest
        · rw [if_neg htea] at hnone
          cases hfind : rooms.find? (fun room =>
              !has_conflict ro day (run_start ds i) (run_stop ds i blk) (some room.id)) with
          | some room => rw [hfind] at hnone; exact absurd hnone (by simp)
          | none => rw [hfind] at hnone; exact ih hnone idx hrest

lemma idx_passes_false_sec {so to_ ro : Occ} {sid : Nat} {tid : Option Nat}
    {rooms : List Room} {day : Nat} {ds : List (Nat × Nat)} {blk i : Nat}
    (hsec : has_conflict so day (run_start ds i) (run_stop ds i blk) (some sid) = true) :
    idx_passes so to_ ro sid tid rooms day ds blk i = false := by
  simp [idx_passes, hsec]

lemma idx_passes_false_tea {so to_ ro : Occ} {sid : Nat} {tid : Option Nat}
    {rooms : List Room} {day : Nat} {ds : List (Nat × Nat)} {blk i : Nat}
    (htea : teacher_conflict to_ tid day (run_start ds i) (run_stop ds i blk) = true) :
    idx_passes so to_ ro sid tid rooms day ds blk i = false := by
  simp [idx_passes, htea]

lemma idx_passes_false_room {so to_ ro : Occ} {sid : Nat} {tid : Option Nat}
    {rooms : List Room} {day : Nat} {ds : List (Nat × Nat)} {blk i : Nat}
    (hfind : rooms.find? (fun room =>
      !has_conflict ro day (run_start ds i) (run_stop ds i blk) (some room.id)) = none) :
    idx_passes so to_ ro sid tid rooms day ds blk i = false := by
  unfold idx_passes
  have hany : rooms.any (fun room =>
      !has_conflict ro day (run_start ds i) (run_stop ds i blk) (some room.id)) = false := by
    rw [List.any_eq_false]
    intro room hroom
    simpa using List.find?_eq_none.1 hfind room hroom
  simp [hany]

lemma find_run_some (so to_ ro : Occ) (sid : Nat) (tid : Option Nat)
    (rooms : List Room) (day : Nat) (ds : List (Nat × Nat)) (blk : Nat) :
    ∀ idxs start stop room,
      find_run so to_ ro sid tid rooms day ds blk idxs = some (start, stop, room) →
      ∃ pre idx post, idxs = pre ++ idx :: post ∧
        (∀ j ∈ pre, idx_passes so to_ ro sid tid rooms day ds blk j = false) ∧
        idx_passes so to_ ro sid tid rooms day ds blk idx = true ∧
        start = run_start ds idx ∧ stop = run_stop ds idx blk ∧
        rooms.find? (fun r =>
          !has_conflict ro day (run_start ds idx) (run_stop ds idx blk) (some r.id))
            = some room := by
  intro idxs
  induction idxs with
  | nil => intro s e r h; simp [find_run] at h
  | cons i rest ih =>
    intro s e r hsome
    unfold find_run at hsome
    by_cases hsec : has_conflict so day (run_start ds i) (run_stop ds i blk) (some sid) = true
    · rw [if_pos hsec] at hsome
      obtain ⟨pre, idx, post, heq, hpre, hpass, h1, h2, h3⟩ := ih s e r hsome
      refine ⟨i :: pre, idx, post, by rw [heq]; rfl, ?_, hpass, h1, h2, h3⟩
      intro j hj
      rcases List.mem_cons.1 hj with hji | hjp
      · rw [hji]; exact idx_passes_false_sec hsec
      · exact hpre j hjp
    · rw [if_neg hsec] at hsome
      by_cases htea : teacher_conflict to_ tid day (run_start ds i) (run_stop ds i blk) = true
      · rw [if_pos htea] at hsome
        obtain ⟨pre, idx, post, heq, hpre, hpass, h1, h2, h3⟩ := ih s e r hsome
        refine ⟨i :: pre, idx, post, by rw [heq]; rfl, ?_, hpass, h1, h2, h3⟩
        intro j hj
        rcases List.mem_cons.1 hj with hji | hjp
        · rw [hji]; exact idx_passes_false_tea htea
        · exact hpre j hjp
      · rw [if_neg htea] at hsome
        cases hfind : rooms.find? (fun room =>
            !has_conflict ro day (run_start ds i) (run_stop ds i blk) (some room.id)) with
        | some room =>
          rw [hfind] at hsome
          simp only [Option.some.injEq, Prod.mk.injEq] at hsome
          obtain ⟨hs, he, hr⟩ := hsome
          refine ⟨[], i, rest, rfl, by simp, ?_, hs.symm, he.symm, by rw [hfind, hr]⟩
          unfold idx_passes
          rw [Bool.and_eq_true, Bool.and_eq_true]
          refine ⟨⟨by simp [hsec], by simp [htea]⟩, ?_⟩
          exact List.any_eq_true.2
            ⟨room, List.mem_of_find?_eq_some hfind, by simpa using List.find?_some hfind⟩
        | none =>
          rw [hfind] at hsome
          obtain ⟨pre, idx, post, heq, hpre, hpass, h1, h2, h3⟩ := ih s e r hsome
          refine ⟨i :: pre, idx, post, by rw [heq]; rfl, ?_, hpass, h1, h2, h3⟩
          intro j hj
          rcases List.mem_cons.1 hj with hji | hjp
          · rw [hji]; exact idx_passes_false_room hfind
          · exact hpre j hjp

lemma range_split (n : Nat) (pre : List Nat) (idx : Nat) (post : List Nat)
    (h : List.range n = pre ++ idx :: post) :
    idx < n ∧ ∀ j, j < idx → j ∈ pre := by
  have hsorted := List.sorted_lt_range n
  rw [h] at hsorted
  rw [List.Sorted, List.pairwise_append] at hsorted
  obtain ⟨hpre, hrest, hcross⟩ := hsorted
  have hidxmem : idx ∈ List.range n := by
    rw [h]; exact List.mem_append_right _ (List.mem_cons_self _ _)
  have hidxlt : idx < n := List.mem_range.1 hidxmem
  refine ⟨hidxlt, fun j hj => ?_⟩
  have hjmem : j ∈ List.range n := List.mem_range.2 (hj.trans hidxlt)
  rw [h] at hjmem
  rcases List.mem_append.1 hjmem with hp | hq
  · exact hp
  · rcases List.mem_cons.1 hq with he | hpost
    · omega
    · have := (List.pairwise_cons.1 hrest).1 j hpost
      omega

/-- A whole day yields no placement for a block: every in-range run fails. -/
def day_fails (so to_ ro : Occ) (sid : Nat) (tid : Option Nat)
    (rooms : List Room) (blk : Nat) (p : Nat × List (Nat × Nat)) : Prop :=
  ∀ idx, idx + blk ≤ p.2.length →
    idx_passes so to_ ro sid tid rooms p.1 p.2 blk idx = false

lemma day_fails_short {so to_ ro : Occ} {sid : Nat} {tid : Option Nat}
    {rooms : List Room} {blk : Nat} {p : Nat × List (Nat × Nat)}
    (h : p.2.length < blk) : day_fails so to_ ro sid tid rooms blk p := by
  intro idx hidx
  omega

lemma day_fails_of_none {so to_ ro : Occ} {sid : Nat} {tid : Option Nat}
    {rooms : List Room} {blk : Nat} {p : Nat × List (Nat × Nat)}
    (hblk : ¬ p.2.length < blk)
    (hnone : find_run so to_ ro sid tid rooms p.1 p.2 blk
      (List.range (p.2.length - blk + 1)) = none) :
    day_fails so to_ ro sid tid rooms blk p := by
  intro idx hidx
  exact find_run_none so to_ ro sid tid rooms p.1 p.2 blk _ hnone idx
    (List.mem_range.2 (by omega))

lemma find_day_some (so to_ ro : Occ) (sid : Nat) (tid : Option Nat)
    (rooms : List Room) (blk : Nat) :
    ∀ sbd day start stop room,
      find_day so to_ ro sid tid rooms blk sbd = some (day, start, stop, room) →
      ∃ pre ds post, sbd = pre ++ (day, ds) :: post ∧
        (∀ p ∈ pre, day_fails so to_ ro sid tid rooms blk p) ∧
        blk ≤ ds.length ∧
        ∃ idx, idx + blk ≤ ds.length ∧
          (∀ j, j < idx → idx_passes so to_ ro sid tid rooms day ds blk j = false) ∧
          idx_passes so to_ ro sid tid rooms day ds blk idx = true ∧
          start = run_start ds idx ∧ stop = run_stop ds idx blk ∧
          rooms.find? (fun r =>
            !has_conflict ro day (run_start ds idx) (run_stop ds idx blk) (some r.id))
              = some room := by
  intro sbd
  induction sbd with
  | nil => intro day s e r h; simp [find_day] at h
  | cons p rest ih =>
    obtain ⟨d, ds0⟩ := p
    intro day s e r hsome
    unfold find_day at hsome
    by_cases hshort : ds0.length < blk
    · rw [if_pos hshort] at hsome
      obtain ⟨pre, ds, post, heq, hpre, hlen, hrest⟩ := ih day s e r hsome
      refine ⟨(d, ds0) :: pre, ds, post, by rw [heq]; rfl, ?_, hlen, hrest⟩
      intro q hq
      rcases List.mem_cons.1 hq with hq1 | hq2
      · rw [hq1]; exact day_fails_short hshort
      · exact hpre q hq2
    · rw [if_neg hshort] at hsome
      cases hfr : find_run so to_ ro sid tid rooms d ds0 blk
          (List.range (ds0.length - blk + 1)) with
      | some res =>
        obtain ⟨s', e', r'⟩ := res
        rw [hfr] at hsome
        simp only [Option.some.injEq, Prod.mk.injEq] at hsome
        obtain ⟨hd, hs, he, hr⟩ := hsome
        rw [hd] at hfr
        obtain ⟨pre', idx, post', heq', hpre', hpass, h1, h2, h3⟩ :=
          find_run_some so to_ ro sid tid rooms day ds0 blk
            (List.range (ds0.length - blk + 1)) s' e' r' hfr
        obtain ⟨hidxlt, hjpre⟩ :=
          range_split (ds0.length - blk + 1) pre' idx post' heq'
        refine ⟨[], ds0, rest, by rw [hd]; rfl, by simp, by omega, idx, by omega,
          ?_, hpass, by rw [← hs, h1], by rw [← he, h2], by rw [← hr]; exact h3⟩
        intro j hj
        exact hpre' j (hjpre j hj)
      | none =>
        rw [hfr] at hsome
        obtain ⟨pre, ds, post, heq, hpre, hlen, hrest⟩ := ih day s e r hsome
        refine ⟨(d, ds0) :: pre, ds, post, by rw [heq]; rfl, ?_, hlen, hrest⟩
        intro q hq
        rcases List.mem_cons.1 hq with hq1 | hq2
        · rw [hq1]; exact day_fails_of_none hshort hfr
        · exact hpre q hq2

/-! ## The no-overlap invariant (spec §3, §8) -/

/-- Two schedule entries overlap when they sit on the same day and their
half-open `[start, stop)` minute intervals intersect. -/
def overlaps (a b : Entry) : Prop :=
  a.day = b.day ∧ b.start < a.stop ∧ a.start < b.stop

/-- Two entries share a resource: same section, same (set) teacher, or same
(set) room. -/
def shares (a b : Entry) : Prop :=
  a.section_id = b.section_id ∨
  (∃ t, a.teacher_id = some t ∧ b.teacher_id = some t) ∨
  (∃ r, a.room_id = some r ∧ b.room_id = some r)

/-- The spec invariant, for one pair of entries. -/
def no_overlap_pair (a b : Entry) : Prop :=
  shares a b → ¬ overlaps a b

lemma overlaps_symm {a b : Entry} (h : overlaps a b) : overlaps b a := by
  obtain ⟨hd, h1, h2⟩ := h
  exact ⟨hd.symm, h2, h1⟩

lemma shares_symm {a b : Entry} (h : shares a b) : shares b a := by
  rcases h with h | ⟨t, h1, h2⟩ | ⟨r, h1, h2⟩
  · exact Or.inl h.symm
  · exact Or.inr (Or.inl ⟨t, h2, h1⟩)
  · exact Or.inr (Or.inr ⟨r, h2, h1⟩)

lemma no_overlap_pair_symm {a b : Entry} (h : no_overlap_pair a b) :
    no_overlap_pair b a :=
  fun hs hov => h (shares_symm hs) (overlaps_symm hov)

lemma key_applies_same (k : Nat) : key_applies (some k) (some k) = true := by
  simp [key_applies]

lemma has_conflict_false_forall {occ : Occ} {day start stop : Nat}
    {key : Option Nat} (h : has_conflict occ day start stop key = false) :
    ∀ q ∈ occ, q.day = day → key_applies key q.key = true →
      stop ≤ q.start ∨ q.stop ≤ start := by
  rw [has_conflict, List.any_eq_false] at h
  intro q hq hd hk
  have hqf := h q hq
  simp only [hd, hk, beq_self_eq_true, Bool.true_and, Bool.and_true,
    Bool.not_eq_true', Bool.not_eq_false, Bool.or_eq_true,
    decide_eq_true_eq, ge_iff_le, Bool.and_eq_true, not_and] at hqf
  tauto

/-- The three checks behind a successful `find_day` placement. -/
lemma find_day_checks {so to_ ro : Occ} {sid : Nat} {tid : Option Nat}
    {rooms : List Room} {blk : Nat} {sbd : List (Nat × List (Nat × Nat))}
    {day start stop : Nat} {room : Room}
    (h : find_day so to_ ro sid tid rooms blk sbd = some (day, start, stop, room)) :
    has_conflict so day start stop (some sid) = false ∧
    teacher_conflict to_ tid day start stop = false ∧
    room ∈ rooms ∧
    has_conflict ro day start stop (some room.id) = false := by
  obtain ⟨pre, ds, post, _, _, _, idx, _, _, hpass, h1, h2, h3⟩ :=
    find_day_some so to_ ro sid tid rooms blk sbd day start stop room h
  unfold idx_passes at hpass
  rw [Bool.and_eq_true, Bool.and_eq_true] at hpass
  obtain ⟨⟨hsec, htea⟩, _⟩ := hpass
  subst h1
  subst h2
  exact ⟨by simpa using hsec, by simpa using htea,
    List.mem_of_find?_eq_some h3, by simpa using List.find?_some h3⟩

/-- An entry is indexed in the three occupancy maps exactly as the source
records it (teacher / room items only when set). -/
def entry_covered (e : Entry) (so to_ ro : Occ) : Prop :=
  (⟨e.day, e.start, e.stop, some e.section_id⟩ : OccItem) ∈ so ∧
  (∀ t, e.teacher_id = some t → (⟨e.day, e.start, e.stop, some t⟩ : OccItem) ∈ to_) ∧
  (∀ r, e.room_id = some r → (⟨e.day, e.start, e.stop, some r⟩ : OccItem) ∈ ro)

lemma init_foldl_mono (sid : Nat) :
    ∀ (l : List Entry) (acc : Occ × Occ × Occ) (q : OccItem),
      (q ∈ acc.1 → q ∈ (l.foldl (init_step sid) acc).1) ∧
      (q ∈ acc.2.1 → q ∈ (l.foldl (init_step sid) acc).2.1) ∧
      (q ∈ acc.2.2 → q ∈ (l.foldl (init_step sid) acc).2.2) := by
  intro l
  induction l with
  | nil => intro acc q; exact ⟨id, id, id⟩
  | cons r rest ih =>
    intro acc q
    rw [List.foldl_cons]
    refine ⟨fun hq => ?_, fun hq => ?_, fun hq => ?_⟩
    · refine (ih (init_step sid acc r) q).1 ?_
      unfold init_step
      split
      · exact hq
      · exact List.mem_append_left _ hq
    · refine (ih (init_step sid acc r) q).2.1 ?_
      unfold init_step
      split
      · exact hq
      · cases htid : r.teacher_id <;> simp only [htid]
        · exact hq
        · exact List.mem_append_left _ hq
    · refine (ih (init_step sid acc r) q).2.2 ?_
      unfold init_step
      split
      · exact hq
      · cases hrid : r.room_id <;> simp only [hrid]
        · exact hq
        · exact List.mem_append_left _ hq

lemma init_foldl_covers (sid : Nat) :
    ∀ (l : List Entry) (acc : Occ × Occ × Occ),
      ∀ ex ∈ l, ex.section_id ≠ sid →
        entry_covered ex (l.foldl (init_step sid) acc).1
          (l.foldl (init_step sid) acc).2.1 (l.foldl (init_step sid) acc).2.2 := by
  intro l
  induction l with
  | nil => intro acc ex hex; simp at hex
  | cons r rest ih =>
    intro acc ex hex hne
    rw [List.foldl_cons]
    rcases List.mem_cons.1 hex with heq | hmem
    · subst heq
      have hstep : init_step sid acc ex =
          (record_block acc.1 ex.day ex.start ex.stop (some ex.section_id),
           (match ex.teacher_id with
            | some t => record_block acc.2.1 ex.day ex.start ex.stop (some t)
            | none => acc.2.1),
           (match ex.room_id with
            | some rm => record_block acc.2.2 ex.day ex.start ex.stop (some rm)
            | none => acc.2.2)) := by
        unfold init_step
        rw [if_neg (by simpa using hne)]
      refine ⟨?_, ?_, ?_⟩
      · refine (init_foldl_mono sid rest _ _).1 ?_
        rw [hstep]
        exact List.mem_append_right _ (List.mem_singleton.2 rfl)
      · intro t ht
        refine (init_foldl_mono sid rest _ _).2.1 ?_
        rw [hstep]
        simp only [ht]
        exact List.mem_append_right _ (List.mem_singleton.2 rfl)
      · intro rm hrm
        refine (init_foldl_mono sid rest _ _).2.2 ?_
        rw [hstep]
        simp only [hrm]
        exact List.mem_append_right _ (List.mem_singleton.2 rfl)
    · exact ih (init_step sid acc r) ex hmem hne

/-- The allocator-loop invariant: every committed entry belongs to the
section being scheduled, every committed / relevant pre-existing entry is
indexed in the occupancy maps, and the spec's no-overlap property holds
among committed entries and against other sections' pre-existing entries. -/
def Inv (sid : Nat) (existing : List Entry) (st : AllocState) : Prop :=
  (∀ e ∈ st.new_entries, e.section_id = sid) ∧
  (∀ e ∈ st.new_entries, entry_covered e st.section_occ st.teacher_occ st.room_occ) ∧
  (∀ ex ∈ existing, ex.section_id ≠ sid →
    entry_covered ex st.section_occ st.teacher_occ st.room_occ) ∧
  List.Pairwise no_overlap_pair st.new_entries ∧
  (∀ e ∈ st.new_entries, ∀ ex ∈ existing, ex.section_id ≠ sid →
    no_overlap_pair e ex)

lemma alloc_block_inv {sid : Nat} {rooms : List Room}
    {sbd : List (Nat × List (Nat × Nat))} {subj : Subject} {blk : Nat}
    {existing : List Entry} {st : AllocState}
    (hinv : Inv sid existing st) :
    Inv sid existing (alloc_block sid rooms sbd subj blk st) := by
  obtain ⟨hsec_ids, hcov, hexcov, hpw, hcross⟩ := hinv
  unfold alloc_block
  cases hfd : find_day st.section_occ st.teacher_occ st.room_occ sid
      subj.teacher_id rooms blk sbd with
  | none => exact ⟨hsec_ids, hcov, hexcov, hpw, hcross⟩
  | some res =>
    obtain ⟨day, start, stop, room⟩ := res
    obtain ⟨hso, htea, hroommem, hro⟩ := find_day_checks hfd
    have hteamono : ∀ q : OccItem, q ∈ st.teacher_occ →
        q ∈ (match subj.teacher_id with
             | some t => record_block st.teacher_occ day start stop (some t)
             | none => st.teacher_occ) := by
      intro q hq
      cases subj.teacher_id
      · exact hq
      · exact List.mem_append_left _ hq
    have hpresv : ∀ x : Entry,
        entry_covered x st.section_occ st.teacher_occ st.room_occ →
        entry_covered x (record_block st.section_occ day start stop (some sid))
          (match subj.teacher_id with
           | some t => record_block st.teacher_occ day start stop (some t)
           | none => st.teacher_occ)
          (record_block st.room_occ day start stop (some room.id)) := by
      intro x hx
      exact ⟨List.mem_append_left _ hx.1,
        fun t ht => hteamono _ (hx.2.1 t ht),
        fun r hr => List.mem_append_left _ (hx.2.2 r hr)⟩
    have hnewcov : entry_covered
        ⟨sid, subj.id, subj.teacher_id, some room.id, day, start, stop⟩
        (record_block st.section_occ day start stop (some sid))
        (match subj.teacher_id with
         | some t => record_block st.teacher_occ day start stop (some t)
         | none => st.teacher_occ)
        (record_block st.room_occ day start stop (some room.id)) := by
      refine ⟨List.mem_append_right _ (List.mem_singleton.2 rfl), ?_, ?_⟩
      · intro t ht
        simp only at ht
        rw [ht]
        exact List.mem_append_right _ (List.mem_singleton.2 rfl)
      · intro r hr
        simp only [Option.some.injEq] at hr
        rw [← hr]
        exact List.mem_append_right _ (List.mem_singleton.2 rfl)
    have hnooverlap_old : ∀ a ∈ st.new_entries,
        ¬ overlaps a ⟨sid, subj.id, subj.teacher_id, some room.id, day, start, stop⟩ := by
      intro a ha hov
      obtain ⟨hd, h1, h2⟩ := hov
      simp only at hd h1 h2
      have hq := (hcov a ha).1
      have hkey : key_applies (some sid) (some a.section_id) = true := by
        rw [hsec_ids a ha]; exact key_applies_same sid
      have := has_conflict_false_forall hso _ hq hd hkey
      simp only at this
      omega
    have hnooverlap_ex : ∀ ex ∈ existing, ex.section_id ≠ sid →
        no_overlap_pair ⟨sid, subj.id, subj.teacher_id, some room.id, day, start, stop⟩ ex := by
      intro ex hexm hne hs hov
      obtain ⟨hd, h1, h2⟩ := hov
      simp only at hd h1 h2
      rcases hs with hsec | ⟨t, het, hext⟩ | ⟨r, her, hexr⟩
      · simp only at hsec
        exact hne hsec.symm
      · simp only at het
        have hteaconf : has_conflict st.teacher_occ day start stop (some t) = false := by
          rw [het] at htea
          simpa [teacher_conflict] using htea
        have hq := (hexcov ex hexm hne).2.1 t hext
        have := has_conflict_false_forall hteaconf _ hq hd.symm (key_applies_same t)
        simp only at this
        omega
      · simp only [Option.some.injEq] at her
        subst her
        have hq := (hexcov ex hexm hne).2.2 _ hexr
        have := has_conflict_false_forall hro _ hq hd.symm (key_applies_same _)
        simp only at this
        omega
    refine ⟨?_, ?_, ?_, ?_, ?_⟩
    · intro x hx
      rcases List.mem_append.1 hx with hx | hx
      · exact hsec_ids x hx
      · rw [List.mem_singleton.1 hx]
    · intro x hx
      rcases List.mem_append.1 hx with hx | hx
      · exact hpresv x (hcov x hx)
      · rw [List.mem_singleton.1 hx]
        exact hnewcov
    · intro ex hexm hne
      exact hpresv ex (hexcov ex hexm hne)
    · rw [List.pairwise_append]
      refine ⟨hpw, List.pairwise_singleton _ _, ?_⟩
      intro a ha b hb
      rw [List.mem_singleton.1 hb]
      exact fun _ => hnooverlap_old a ha
    · intro x hx ex hexm hne
      rcases List.mem_append.1 hx with hx | hx
      · exact hcross x hx ex hexm hne
      · rw [List.mem_singleton.1 hx]
        exact hnooverlap_ex ex hexm hne

lemma alloc_subject_inv {sid : Nat} {rooms : List Room}
    {sbd : List (Nat × List (Nat × Nat))} {existing : List Entry}
    {st : AllocState} {subj : Subject} (hinv : Inv sid existing st) :
    Inv sid existing (alloc_subject sid rooms sbd st subj) := by
  unfold alloc_subject
  generalize (split_hours_into_blocks (subject_weekly_hours subj)).map Int.toNat
    = blocks
  induction blocks generalizing st with
  | nil => simpa using hinv
  | cons b rest ih => rw [List.foldl_cons]; exact ih (alloc_block_inv hinv)

lemma foldl_subjects_inv {sid : Nat} {rooms : List Room}
    {sbd : List (Nat × List (Nat × Nat))} {existing : List Entry} :
    ∀ (subjects : List Subject) (st : AllocState), Inv sid existing st →
      Inv sid existing (subjects.foldl (alloc_subject sid rooms sbd) st) := by
  intro subjects
  induction subjects with
  | nil => intro st h; simpa using h
  | cons subj rest ih =>
    intro st h
    rw [List.foldl_cons]
    exact ih _ (alloc_subject_inv h)

lemma alloc_run_inv (sec : Section) (rooms : List Room)
    (subjects : List Subject) (existing : List Entry) (sat : Bool) :
    Inv sec.id existing (alloc_run sec rooms subjects existing sat) := by
  unfold alloc_run
  apply foldl_subjects_inv
  refine ⟨by simp, by simp, ?_, by simp, by simp⟩
  intro ex hexm hne
  exact init_foldl_covers sec.id existing ([], [], []) ex hexm hne

/-! ## Claim C2: no overlapping intervals among entries sharing a resource -/

/-- C2: every entry the allocator run creates overlaps, on its day, neither
another entry created in the same run sharing its section / teacher / room
nor a pre-existing entry of another section sharing its teacher or room
(pre-existing entries of the regenerated section itself are deleted by the
run). -/
theorem C2_entries_no_overlap (sec : Section) (rooms : List Room)
    (subjects : List Subject) (existing : List Entry) (sat : Bool) :
    List.Pairwise no_overlap_pair
      (alloc_run sec rooms subjects existing sat).new_entries ∧
    (∀ e ∈ (alloc_run sec rooms subjects existing sat).new_entries,
      ∀ ex ∈ existing, ex.section_id ≠ sec.id → no_overlap_pair e ex) := by
  have h := alloc_run_inv sec rooms subjects existing sat
  exact ⟨h.2.2.2.1, h.2.2.2.2⟩

/-- C2 witness: in a concrete run (one subject with a fixed teacher, one
pre-existing entry of another section with the same teacher), the first
created entry does not overlap the pre-existing one. -/
theorem C2_entries_no_overlap_witness :
    no_overlap_pair ⟨1, 10, some 1, some 1, 0, 660, 840⟩
      ⟨2, 99, some 1, none, 0, 420, 660⟩ :=
  (C2_entries_no_overlap ⟨1, "G7A", "JHS", "Grade 7", ""⟩ [⟨1, "Room A"⟩]
      [⟨10, "Custom Subject", "Core", "JHS", "", none, none, some 1⟩]
      [⟨2, 99, some 1, none, 0, 420, 660⟩] false).2
    ⟨1, 10, some 1, some 1, 0, 660, 840⟩ (by decide)
    ⟨2, 99, some 1, none, 0, 420, 660⟩ (by decide) (by decide)

/-! ## Claim C3: slot alignment of created entries -/

/-- The per-day slot list every scheduled day carries (9 hourly slots,
07:00-12:00 and 13:00-17:00, in minutes). -/
def day_hour_slots : List (Nat × Nat) :=
  [(420, 480), (480, 540), (540, 600), (600, 660), (660, 720),
   (780, 840), (840, 900), (900, 960), (960, 1020)]

lemma slots_by_day_shape (sat : Bool) :
    ∀ p ∈ slots_by_day (generate_slots sat),
      p.2 = day_hour_slots ∧ p.1 < 5 + (if sat then 1 else 0) := by
  cases sat <;> decide

lemma lookup_table_ge_three :
    ∀ (l : List (String × Int)), (∀ p ∈ l, 3 ≤ p.2) →
      ∀ (n : String) (v : Int), l.lookup n = some v → 3 ≤ v := by
  intro l
  induction l with
  | nil => intro _ n v h; simp [List.lookup] at h
  | cons p rest ih =>
    intro hall n v h
    rw [List.lookup] at h
    by_cases he : n == p.1
    · rw [he] at h
      simp only [Option.some.injEq] at h
      rw [← h]
      exact hall p (List.mem_cons_self _ _)
    · rw [Bool.not_eq_true] at he
      rw [he] at h
      exact ih (fun q hq => hall q (List.mem_cons_of_mem _ hq)) n v h

lemma subject_weekly_hours_ge_three (subj : Subject) :
    3 ≤ subject_weekly_hours subj := by
  unfold subject_weekly_hours
  cases h : SUBJECT_WEEKLY_HOURS.lookup subj.name with
  | none => split_ifs <;> norm_num
  | some v => exact lookup_table_ge_three SUBJECT_WEEKLY_HOURS (by decide) _ v h

lemma blocks_pos (subj : Subject) :
    ∀ b ∈ (split_hours_into_blocks (subject_weekly_hours subj)).map Int.toNat,
      1 ≤ b := by
  intro b hb
  obtain ⟨bi, hbi, rfl⟩ := List.mem_map.1 hb
  have h3 := subject_weekly_hours_ge_three subj
  unfold split_hours_into_blocks at hbi
  split_ifs at hbi with h1 h2 h4 h5 <;> simp at hbi <;> omega

lemma run_bounds_concrete :
    ∀ idx ∈ List.range 9, ∀ blk ∈ List.range 10, 1 ≤ blk → idx + blk ≤ 9 →
      ((idx + blk ≤ 5 ∨ 5 ≤ idx) →
        run_stop day_hour_slots idx blk = run_start day_hour_slots idx + 60 * blk ∧
        (run_stop day_hour_slots idx blk ≤ 720 ∨
          780 ≤ run_start day_hour_slots idx)) ∧
      (idx < 5 → 5 < idx + blk →
        run_start day_hour_slots idx ≤ 660 ∧ 840 ≤ run_stop day_hour_slots idx blk ∧
        run_stop day_hour_slots idx blk
          = run_start day_hour_slots idx + 60 * blk + 60) := by
  decide

/-- What actually holds of a created entry's interval: it spans a contiguous
run of `blk` slots of the day's 9-slot list; when the run stays within one
of the two hour ranges it is exactly `blk` contiguous hours avoiding lunch,
but a run straddling the morning/afternoon boundary spans `blk` hours plus
the lunch hour and covers 12:00-13:00 entirely. -/
def slot_aligned (sat : Bool) (c : Created) : Prop :=
  c.day < 5 + (if sat then 1 else 0) ∧
  ∃ idx blk, 1 ≤ blk ∧ idx + blk ≤ 9 ∧
    c.start = run_start day_hour_slots idx ∧
    c.stop = run_stop day_hour_slots idx blk ∧
    ((idx + blk ≤ 5 ∨ 5 ≤ idx) →
      c.stop = c.start + 60 * blk ∧ (c.stop ≤ 720 ∨ 780 ≤ c.start)) ∧
    (idx < 5 → 5 < idx + blk →
      c.start ≤ 660 ∧ 840 ≤ c.stop ∧ c.stop = c.start + 60 * blk + 60)

lemma alloc_block_aligned {sid : Nat} {rooms : List Room} {sat : Bool}
    {subj : Subject} {blk : Nat} {st : AllocState} (hblk : 1 ≤ blk)
    (hst : ∀ c ∈ st.created, slot_aligned sat c) :
    ∀ c ∈ (alloc_block sid rooms (slots_by_day (generate_slots sat)) subj blk st).created,
      slot_aligned sat c := by
  unfold alloc_block
  cases hfd : find_day st.section_occ st.teacher_occ st.room_occ sid
      subj.teacher_id rooms blk (slots_by_day (generate_slots sat)) with
  | none => exact hst
  | some res =>
    obtain ⟨day, start, stop, room⟩ := res
    intro c hc
    rcases List.mem_append.1 hc with hc | hc
    · exact hst c hc
    · rw [List.mem_singleton.1 hc]
      obtain ⟨pre, ds, post, heq, _, hlen, idx, hidx, _, _, h1, h2, _⟩ :=
        find_day_some _ _ _ _ _ _ _ _ _ _ _ _ hfd
      have hmem : (day, ds) ∈ slots_by_day (generate_slots sat) := by
        rw [heq]
        exact List.mem_append_right _ (List.mem_cons_self _ _)
      obtain ⟨hds, hday⟩ := slots_by_day_shape sat (day, ds) hmem
      simp only at hds hday
      subst hds
      have hidx9 : idx + blk ≤ 9 := by simpa using hidx
      have hbounds := run_bounds_concrete idx (List.mem_range.2 (by omega))
        blk (List.mem_range.2 (by omega)) hblk hidx9
      refine ⟨hday, idx, blk, hblk, hidx9, ?_, ?_, ?_, ?_⟩
      · simpa using h1
      · simpa using h2
      · intro hcase
        simp only [h1, h2]
        exact hbounds.1 hcase
      · intro hc1 hc2
        simp only [h1, h2]
        exact hbounds.2 hc1 hc2

lemma foldl_blocks_aligned {sid : Nat} {rooms : List Room} {sat : Bool}
    {subj : Subject} :
    ∀ (blocks : List Nat) (st : AllocState),
      (∀ b ∈ blocks, 1 ≤ b) →
      (∀ c ∈ st.created, slot_aligned sat c) →
      ∀ c ∈ (blocks.foldl
          (fun st blk => alloc_block sid rooms (slots_by_day (generate_slots sat)) subj blk st)
          st).created,
        slot_aligned sat c := by
  intro blocks
  induction blocks with
  | nil => intro st _ hst; simpa using hst
  | cons b rest ih =>
    intro st hpos hst
    rw [List.foldl_cons]
    exact ih _ (fun b' h => hpos b' (List.mem_cons_of_mem _ h))
      (alloc_block_aligned (hpos b (List.mem_cons_self _ _)) hst)

lemma foldl_subjects_aligned {sid : Nat} {rooms : List Room} {sat : Bool} :
    ∀ (subjects : List Subject) (st : AllocState),
      (∀ c ∈ st.created, slot_aligned sat c) →
      ∀ c ∈ (subjects.foldl
          (alloc_subject sid rooms (slots_by_day (generate_slots sat))) st).created,
        slot_aligned sat c := by
  intro subjects
  induction subjects with
  | nil => intro st hst; simpa using hst
  | cons subj rest ih =>
    intro st hst
    rw [List.foldl_cons]
    exact ih _ (foldl_blocks_aligned _ _ (blocks_pos subj) hst)

/-- C3 counterexample: in a concrete run (junior subject with fixed teacher
1, a pre-existing entry of another section occupying that teacher
07:00-11:00 on day 0), the first committed block is placed at 11:00-14:00:
its interval strictly contains the excluded lunch hour 12:00-13:00 and is
not 2 contiguous hours for its 2-slot block. -/
theorem C3_counterexample :
    ∃ c ∈ (alloc_run ⟨1, "G7A", "JHS", "Grade 7", ""⟩ [⟨1, "Room A"⟩]
        [⟨10, "Custom Subject", "Core", "JHS", "", none, none, some 1⟩]
        [⟨2, 99, some 1, none, 0, 420, 660⟩] false).created,
      c.start ≤ 720 ∧ 780 ≤ c.stop := by
  decide

/-- C3 (amended): every created entry occupies a contiguous run of `blk`
whole-hour slots of its single day's generated slot list (days 0-4, plus 5
with Saturday); when the run stays inside one of the ranges 07:00-12:00 /
13:00-17:00 the interval is exactly `blk` contiguous hours and avoids the
lunch hour, but a run may straddle the morning/afternoon boundary, in which
case the interval spans `blk` hours plus the lunch hour and contains
12:00-13:00 entirely. -/
theorem C3_created_slot_alignment (sec : Section) (rooms : List Room)
    (subjects : List Subject) (existing : List Entry) (sat : Bool) :
    ∀ c ∈ (alloc_run sec rooms subjects existing sat).created,
      slot_aligned sat c := by
  unfold alloc_run
  exact foldl_subjects_aligned subjects _ (by simp)

/-- C3 witness: the first entry of a clean concrete run is slot-aligned. -/
theorem C3_created_slot_alignment_witness :
    slot_aligned false ⟨"Custom Subject", 0, 420, 540, "Room A"⟩ :=
  C3_created_slot_alignment ⟨1, "G7A", "JHS", "Grade 7", ""⟩ [⟨1, "Room A"⟩]
    [⟨10, "Custom Subject", "Core", "JHS", "", none, none, none⟩] [] false
    ⟨"Custom Subject", 0, 420, 540, "Room A"⟩ (by decide)

/-! ## Claim C5: greedy first-fit characterization -/

lemma find?_split {α : Type} (p : α → Bool) :
    ∀ (l : List α) (a : α), l.find? p = some a →
      ∃ pre post, l = pre ++ a :: post ∧ (∀ x ∈ pre, p x = false) ∧
        p a = true := by
  intro l
  induction l with
  | nil => intro a h; simp at h
  | cons x rest ih =>
    intro a h
    rw [List.find?] at h
    cases hx : p x with
    | true =>
      rw [hx] at h
      simp only [Option.some.injEq] at h
      exact ⟨[], rest, by rw [h, List.nil_append], by simp, by rw [← h]; exact hx⟩
    | false =>
      rw [hx] at h
      obtain ⟨pre, post, heq, hpre, hpa⟩ := ih a h
      refine ⟨x :: pre, post, by rw [heq]; rfl, ?_, hpa⟩
      intro y hy
      rcases List.mem_cons.1 hy with hyx | hyp
      · rw [hyx]; exact hx
      · exact hpre y hyp

/-- The spec's greedy first-fit contract for one block: the committed
placement is the first candidate in scan order — days in `slots_by_day`
order, runs within a day by ascending start index — passing the section,
teacher and room checks, and the chosen room is the first conflict-free
room in the canonical room order. -/
def first_fit_spec (so to_ ro : Occ) (sid : Nat) (tid : Option Nat)
    (rooms : List Room) (blk : Nat) (sbd : List (Nat × List (Nat × Nat)))
    (day start stop : Nat) (room : Room) : Prop :=
  ∃ pre ds post, sbd = pre ++ (day, ds) :: post ∧
    (∀ p ∈ pre, day_fails so to_ ro sid tid rooms blk p) ∧
    ∃ idx, idx + blk ≤ ds.length ∧
      (∀ j, j < idx → idx_passes so to_ ro sid tid rooms day ds blk j = false) ∧
      idx_passes so to_ ro sid tid rooms day ds blk idx = true ∧
      start = run_start ds idx ∧ stop = run_stop ds idx blk ∧
      ∃ preR postR, rooms = preR ++ room :: postR ∧
        (∀ r ∈ preR, has_conflict ro day start stop (some r.id) = true) ∧
        has_conflict ro day start stop (some room.id) = false

/-- C5: a committed placement is the first non-conflicting option of the
scan — every earlier day fails entirely, every earlier run of the chosen
day fails, every earlier room of the canonical order conflicts — and the
scanned days are exactly 0..4 (plus 5 with Saturday) in ascending order. -/
theorem C5_greedy_first_fit (so to_ ro : Occ) (sid : Nat) (tid : Option Nat)
    (rooms : List Room) (blk : Nat) (sat : Bool) (day start stop : Nat)
    (room : Room)
    (h : find_day so to_ ro sid tid rooms blk (slots_by_day (generate_slots sat))
      = some (day, start, stop, room)) :
    first_fit_spec so to_ ro sid tid rooms blk
      (slots_by_day (generate_slots sat)) day start stop room ∧
    (slots_by_day (generate_slots sat)).map Prod.fst
      = List.range (5 + if sat then 1 else 0) := by
  constructor
  · obtain ⟨pre, ds, post, heq, hpre, hlen, idx, hidx, hjfail, hpass, h1, h2, h3⟩ :=
      find_day_some so to_ ro sid tid rooms blk _ day start stop room h
    obtain ⟨preR, postR, heqR, hpreR, hroomok⟩ :=
      find?_split _ rooms room h3
    refine ⟨pre, ds, post, heq, hpre, idx, hidx, hjfail, hpass, h1, h2,
      preR, postR, heqR, ?_, ?_⟩
    · intro r hr
      have := hpreR r hr
      rw [h1, h2]
      simpa using this
    · rw [h1, h2]
      simpa using hroomok
  · cases sat <;> decide

/-- C5 witness: on empty occupancy with one room, the first block lands on
day 0 at 07:00-09:00 and the contract holds there. -/
theorem C5_greedy_first_fit_witness :
    first_fit_spec [] [] [] 1 none [⟨1, "Room A"⟩] 2
      (slots_by_day (generate_slots false)) 0 420 540 ⟨1, "Room A"⟩ ∧
    (slots_by_day (generate_slots false)).map Prod.fst
      = List.range (5 + if false then 1 else 0) :=
  C5_greedy_first_fit [] [] [] 1 none [⟨1, "Room A"⟩] 2 false 0 420 540
    ⟨1, "Room A"⟩ (by decide)

/-! ## Claim C6: placement failures are recorded, never fatal -/

/-- C6: when no day/run/room combination fits a block, the step appends one
failure record carrying the subject's name and the requested block length
and changes nothing else — created entries, session entries and occupancy
are untouched, and the (total) allocator continues with the next block. -/
theorem C6_failure_recorded (sid : Nat) (rooms : List Room)
    (sbd : List (Nat × List (Nat × Nat))) (subj : Subject) (blk : Nat)
    (st : AllocState)
    (h : find_day st.section_occ st.teacher_occ st.room_occ sid
      subj.teacher_id rooms blk sbd = none) :
    alloc_block sid rooms sbd subj blk st
      = { st with failures := st.failures ++ [⟨subj.name, blk⟩] } := by
  unfold alloc_block
  rw [h]

/-- C6 witness: with no rooms at all, the first block of a subject fails
and is recorded as `(name, blk)`. -/
theorem C6_failure_recorded_witness :
    alloc_block 1 [] (slots_by_day (generate_slots false))
        ⟨10, "Custom Subject", "Core", "JHS", "", none, none, none⟩ 1
        ⟨[], [], [], [], [], []⟩
      = { (⟨[], [], [], [], [], []⟩ : AllocState) with
          failures := ([] : List Failure) ++ [⟨"Custom Subject", 1⟩] } :=
  C6_failure_recorded 1 [] (slots_by_day (generate_slots false))
    ⟨10, "Custom Subject", "Core", "JHS", "", none, none, none⟩ 1
    ⟨[], [], [], [], [], []⟩ (by decide)

/-! ## Claim C10: one outcome per block -/

lemma split_ne_nil (h : Int) : split_hours_into_blocks h ≠ [] := by
  unfold split_hours_into_blocks
  split_ifs <;> simp

lemma alloc_block_append (sid : Nat) (rooms : List Room)
    (sbd : List (Nat × List (Nat × Nat))) (subj : Subject) (blk : Nat)
    (st : AllocState) :
    ∃ cs fs, (alloc_block sid rooms sbd subj blk st).created = st.created ++ cs ∧
      (alloc_block sid rooms sbd subj blk st).failures = st.failures ++ fs ∧
      cs.length + fs.length = 1 ∧
      (∀ c ∈ cs, c.subject = subj.name) ∧ (∀ f ∈ fs, f.subject = subj.name) := by
  unfold alloc_block
  cases hfd : find_day st.section_occ st.teacher_occ st.room_occ sid
      subj.teacher_id rooms blk sbd with
  | none =>
    exact ⟨[], [⟨subj.name, blk⟩], by simp, rfl, rfl, by simp, by simp⟩
  | some res =>
    obtain ⟨day, start, stop, room⟩ := res
    exact ⟨[⟨subj.name, day, start, stop, room.name⟩], [], rfl, by simp, rfl,
      by simp, by simp⟩

lemma foldl_blocks_append (sid : Nat) (rooms : List Room)
    (sbd : List (Nat × List (Nat × Nat))) (subj : Subject) :
    ∀ (blocks : List Nat) (st : AllocState),
      ∃ cs fs,
        (blocks.foldl (fun st blk => alloc_block sid rooms sbd subj blk st) st).created
          = st.created ++ cs ∧
        (blocks.foldl (fun st blk => alloc_block sid rooms sbd subj blk st) st).failures
          = st.failures ++ fs ∧
        cs.length + fs.length = blocks.length ∧
        (∀ c ∈ cs, c.subject = subj.name) ∧ (∀ f ∈ fs, f.subject = subj.name) := by
  intro blocks
  induction blocks with
  | nil => intro st; exact ⟨[], [], by simp, by simp, by simp, by simp, by simp⟩
  | cons b rest ih =>
    intro st
    rw [List.foldl_cons]
    obtain ⟨cs1, fs1, hc1, hf1, hlen1, hcn1, hfn1⟩ :=
      alloc_block_append sid rooms sbd subj b st
    obtain ⟨cs2, fs2, hc2, hf2, hlen2, hcn2, hfn2⟩ :=
      ih (alloc_block sid rooms sbd subj b st)
    refine ⟨cs1 ++ cs2, fs1 ++ fs2, ?_, ?_, ?_, ?_, ?_⟩
    · rw [hc2, hc1, List.append_assoc]
    · rw [hf2, hf1, List.append_assoc]
    · simp only [List.length_append, List.length_cons]
      omega
    · intro c hc
      rcases List.mem_append.1 hc with hc | hc
      · exact hcn1 c hc
      · exact hcn2 c hc
    · intro f hf
      rcases List.mem_append.1 hf with hf | hf
      · exact hfn1 f hf
      · exact hfn2 f hf

lemma alloc_subject_append (sid : Nat) (rooms : List Room)
    (sbd : List (Nat × List (Nat × Nat))) (subj : Subject) (st : AllocState) :
    ∃ cs fs, (alloc_subject sid rooms sbd st subj).created = st.created ++ cs ∧
      (alloc_subject sid rooms sbd st subj).failures = st.failures ++ fs ∧
      cs.length + fs.length
        = (split_hours_into_blocks (subject_weekly_hours subj)).length ∧
      1 ≤ cs.length + fs.length ∧
      (∀ c ∈ cs, c.subject = subj.name) ∧ (∀ f ∈ fs, f.subject = subj.name) := by
  unfold alloc_subject
  obtain ⟨cs, fs, hc, hf, hlen, hcn, hfn⟩ :=
    foldl_blocks_append sid rooms sbd subj
      ((split_hours_into_blocks (subject_weekly_hours subj)).map Int.toNat) st
  rw [List.length_map] at hlen
  refine ⟨cs, fs, hc, hf, hlen, ?_, hcn, hfn⟩
  rw [hlen]
  have := split_ne_nil (subject_weekly_hours subj)
  cases hsp : split_hours_into_blocks (subject_weekly_hours subj) with
  | nil => exact absurd hsp this
  | cons x xs => simp

lemma foldl_subjects_append (sid : Nat) (rooms : List Room)
    (sbd : List (Nat × List (Nat × Nat))) :
    ∀ (subjects : List Subject) (st : AllocState),
      ∃ cs fs,
        (subjects.foldl (alloc_subject sid rooms sbd) st).created
          = st.created ++ cs ∧
        (subjects.foldl (alloc_subject sid rooms sbd) st).failures
          = st.failures ++ fs ∧
        cs.length + fs.length
          = (subjects.map (fun subj =>
              (split_hours_into_blocks (subject_weekly_hours subj)).length)).sum ∧
        (∀ subj ∈ subjects,
          (∃ c ∈ cs, c.subject = subj.name) ∨ (∃ f ∈ fs, f.subject = subj.name)) := by
  intro subjects
  induction subjects with
  | nil => intro st; exact ⟨[], [], by simp, by simp, by simp, by simp⟩
  | cons subj rest ih =>
    intro st
    rw [List.foldl_cons]
    obtain ⟨cs1, fs1, hc1, hf1, hlen1, hpos1, hcn1, hfn1⟩ :=
      alloc_subject_append sid rooms sbd subj st
    obtain ⟨cs2, fs2, hc2, hf2, hlen2, hsub2⟩ :=
      ih (alloc_subject sid rooms sbd st subj)
    refine ⟨cs1 ++ cs2, fs1 ++ fs2, ?_, ?_, ?_, ?_⟩
    · rw [hc2, hc1, List.append_assoc]
    · rw [hf2, hf1, List.append_assoc]
    · simp only [List.length_append, List.map_cons, List.sum_cons]
      omega
    · intro s hs
      rcases List.mem_cons.1 hs with heq | hmem
      · subst heq
        by_cases hcs : cs1 = []
        · right
          have hfs : fs1 ≠ [] := by
            intro hfs
            rw [hcs, hfs] at hpos1
            simp at hpos1
          obtain ⟨f, hfmem⟩ := List.exists_mem_of_ne_nil _ hfs
          exact ⟨f, List.mem_append_left _ hfmem, hfn1 f hfmem⟩
        · left
          obtain ⟨c, hcmem⟩ := List.exists_mem_of_ne_nil _ hcs
          exact ⟨c, List.mem_append_left _ hcmem, hcn1 c hcmem⟩
      · rcases hsub2 s hmem with ⟨c, hcm, hcn⟩ | ⟨f, hfm, hfn⟩
        · exact Or.inl ⟨c, List.mem_append_right _ hcm, hcn⟩
        · exact Or.inr ⟨f, List.mem_append_right _ hfm, hfn⟩

/-- C10: over a run, each eligible subject contributes exactly one outcome
record per block of its split load, so the created and failed list lengths
sum to the total block count, and (the splitter never returning an empty
list) every eligible subject's name appears in at least one of the two
lists. -/
theorem C10_block_accounting (sec : Section) (rooms : List Room)
    (subjects : List Subject) (existing : List Entry) (sat : Bool) :
    (alloc_run sec rooms subjects existing sat).created.length
      + (alloc_run sec rooms subjects existing sat).failures.length
      = (subjects.map (fun subj =>
          (split_hours_into_blocks (subject_weekly_hours subj)).length)).sum ∧
    ∀ subj ∈ subjects,
      (∃ c ∈ (alloc_run sec rooms subjects existing sat).created,
        c.subject = subj.name) ∨
      (∃ f ∈ (alloc_run sec rooms subjects existing sat).failures,
        f.subject = subj.name) := by
  unfold alloc_run
  obtain ⟨cs, fs, hc, hf, hlen, hsub⟩ :=
    foldl_subjects_append sec.id rooms (slots_by_day (generate_slots sat))
      subjects ⟨(init_occs sec.id existing).1, (init_occs sec.id existing).2.1,
        (init_occs sec.id existing).2.2, [], [], []⟩
  simp only at hc hf
  rw [List.nil_append] at hc hf
  constructor
  · rw [hc, hf, hlen]
  · intro subj hmem
    rcases hsub subj hmem with ⟨c, hcm, hcn⟩ | ⟨f, hfm, hfn⟩
    · exact Or.inl ⟨c, by rw [hc]; exact hcm, hcn⟩
    · exact Or.inr ⟨f, by rw [hf]; exact hfm, hfn⟩

/-- C10 witness: concrete one-subject run — 4-hour load splits into two
blocks, both placed, and the subject appears in the created list. -/
theorem C10_block_accounting_witness :
    ((alloc_run ⟨1, "G7A", "JHS", "Grade 7", ""⟩ [⟨1, "Room A"⟩]
        [⟨10, "Custom Subject", "Core", "JHS", "", none, none, none⟩] [] false).created.length
      + (alloc_run ⟨1, "G7A", "JHS", "Grade 7", ""⟩ [⟨1, "Room A"⟩]
        [⟨10, "Custom Subject", "Core", "JHS", "", none, none, none⟩] [] false).failures.length
      = ([⟨10, "Custom Subject", "Core", "JHS", "", none, none, none⟩].map
          (fun subj : Subject =>
            (split_hours_into_blocks (subject_weekly_hours subj)).length)).sum) ∧
    ((∃ c ∈ (alloc_run ⟨1, "G7A", "JHS", "Grade 7", ""⟩ [⟨1, "Room A"⟩]
        [⟨10, "Custom Subject", "Core", "JHS", "", none, none, none⟩] [] false).created,
        c.subject = "Custom Subject") ∨
      (∃ f ∈ (alloc_run ⟨1, "G7A", "JHS", "Grade 7", ""⟩ [⟨1, "Room A"⟩]
        [⟨10, "Custom Subject", "Core", "JHS", "", none, none, none⟩] [] false).failures,
        f.subject = "Custom Subject")) :=
  ⟨(C10_block_accounting ⟨1, "G7A", "JHS", "Grade 7", ""⟩ [⟨1, "Room A"⟩]
      [⟨10, "Custom Subject", "Core", "JHS", "", none, none, none⟩] [] false).1,
   (C10_block_accounting ⟨1, "G7A", "JHS", "Grade 7", ""⟩ [⟨1, "Room A"⟩]
      [⟨10, "Custom Subject", "Core", "JHS", "", none, none, none⟩] [] false).2
     ⟨10, "Custom Subject", "Core", "JHS", "", none, none, none⟩ (by decide)⟩

/-! ## Claim C4: the `auto-generate` endpoint and its input-error paths

Model of the handler from the `section_id` guard to the commit, over a
persisted database snapshot.  The surrounding plumbing (admin header check,
connection failure) is outside the claims.  An error return before
`session.commit()` leaves the persisted schedule table unchanged (the
session's pending delete is rolled back on close); `ensure_subjects_catalog`
and `ensure_default_room`, however, commit their own inserts. -/

/-- The persisted tables read or written by the endpoint. -/
structure Db where
  subjects : List Subject
  rooms : List Room
  sections : List Section
  schedules : List Entry
deriving DecidableEq, Repr

/-- `seed_subjects_data`: the default catalog — per-grade JHS subjects
(grade_min = grade_max = g) and the fixed SHS Core / Applied lists.  Ids
model the autoincrement values on a freshly-seeded table; the grading
weight columns are not modelled (never read by the embedded logic). -/
def seed_rows_spec : List (String × String × String × Option Nat × Option Nat) :=
  ((List.range 4).flatMap (fun i =>
    let g := 7 + i
    ["Filipino " ++ toString g, "English " ++ toString g,
     "Araling Panlipunan " ++ toString g,
     "Edukasyon sa Pagpapakatao " ++ toString g,
     "Mathematics " ++ toString g, "Science " ++ toString g,
     "MAPEH " ++ toString g, "TLE " ++ toString g].map
      (fun n => (n, "JHS", "Core", some g, some g))))
  ++ (["Oral Communication", "Reading and Writing",
       "Komunikasyon at Pananaliksik", "General Mathematics",
       "Statistics and Probability", "Earth and Life Science",
       "Physical Education and Health",
       "Understanding Culture, Society, and Politics"].map
      (fun n => (n, "SHS", "Core", some 11, some 12)))
  ++ (["Empowerment Technologies", "Entrepreneurship",
       "Practical Research 1", "Practical Research 2",
       "Inquiries, Investigations, and Immersion"].map
      (fun n => (n, "SHS", "Applied", some 11, some 12)))

/-- `seed_subjects_data`: replaces the subject table with the seed rows. -/
def seed_subjects_data (_old : List Subject) : List Subject :=
  seed_rows_spec.enum.map
    (fun p => match p with
      | (i, n, band, cat, gmin, gmax) =>
        ⟨i + 1, n, cat, band, "", gmin, gmax, none⟩)

/-- `ensure_subjects_catalog`: seed (and commit) the default subjects when
the table is empty. -/
def ensure_subjects_catalog (db : Db) : Db :=
  if db.subjects.length = 0 then
    { db with subjects := seed_subjects_data db.subjects }
  else db

/-- `ensure_default_room`: return the first room, creating (and committing)
"Room A" when the table is empty (id 1 models the autoincrement value on
an empty table). -/
def ensure_default_room (db : Db) : Db × Room :=
  match db.rooms.head? with
  | some room => (db, room)
  | none =>
    ({ db with rooms := db.rooms ++ [⟨1, "Room A"⟩] }, ⟨1, "Room A"⟩)

/-- Byte-order comparison of ASCII room names (the database's
`ORDER BY Room.name ASC`). -/
def chars_le : List Char → List Char → Bool
  | [], _ => true
  | _ :: _, [] => false
  | a :: as, b :: bs =>
    if a.toNat < b.toNat then true
    else if b.toNat < a.toNat then false
    else chars_le as bs

/-- Insert a room into a name-sorted list (room names are unique, so the
sort order is determined). -/
def insert_room (r : Room) : List Room → List Room
  | [] => [r]
  | x :: xs =>
    if chars_le r.name.data x.name.data then r :: x :: xs
    else x :: insert_room r xs

/-- `session.query(Room).order_by(Room.name.asc()).all()`. -/
def sort_rooms_by_name : List Room → List Room
  | [] => []
  | r :: rs => insert_room r (sort_rooms_by_name rs)

/-- The endpoint's outcome: an HTTP error (status, message) or the
created/failed pair. -/
inductive GenResult where
  | err (status : Nat) (msg : String)
  | ok (created : List Created) (failed : List Failure)
deriving DecidableEq, Repr

/-- `auto_generate_schedule` (the handler body): guard on `section_id`,
seed the catalog if empty, look up the section, ensure a room, run the
allocator against all persisted entries, and commit the
delete-then-insert of the section's entries only on success.  The
session-local delete issued before the eligible-subjects check is rolled
back (never committed) on the error path, so it does not appear in the
persisted state. -/
def auto_generate_schedule (db : Db) (section_id : Option Nat)
    (allow_saturday : Bool) : GenResult × Db :=
  match section_id with
  | none => (.err 400 "section_id is required", db)
  | some sid =>
    let db1 := ensure_subjects_catalog db
    match db1.sections.find? (fun s => s.id == sid) with
    | none => (.err 404 "Section not found", db1)
    | some sec =>
      let db2 := (ensure_default_room db1).1
      let rooms := sort_rooms_by_name db2.rooms
      let subjects := subjects_for_section db2.subjects sec
      if subjects.isEmpty then
        (.err 400 "No subjects available for section grade", db2)
      else
        let st := alloc_run sec rooms subjects db2.schedules allow_saturday
        (.ok st.created st.failures,
         { db2 with schedules :=
            db2.schedules.filter (fun r => !(r.section_id == sid))
              ++ st.new_entries })

lemma ensure_subjects_catalog_fields (db : Db) :
    (ensure_subjects_catalog db).schedules = db.schedules ∧
    (ensure_subjects_catalog db).sections = db.sections ∧
    (ensure_subjects_catalog db).rooms = db.rooms ∧
    ((ensure_subjects_catalog db).subjects = db.subjects ∨
      (db.subjects = [] ∧
        (ensure_subjects_catalog db).subjects = seed_subjects_data db.subjects)) := by
  unfold ensure_subjects_catalog
  split_ifs with h
  · exact ⟨rfl, rfl, rfl, Or.inr ⟨List.length_eq_zero.1 h, rfl⟩⟩
  · exact ⟨rfl, rfl, rfl, Or.inl rfl⟩

lemma ensure_default_room_fields (db : Db) :
    ((ensure_default_room db).1).schedules = db.schedules ∧
    ((ensure_default_room db).1).sections = db.sections ∧
    ((ensure_default_room db).1).subjects = db.subjects ∧
    (((ensure_default_room db).1).rooms = db.rooms ∨
      (db.rooms = [] ∧ ((ensure_default_room db).1).rooms = [⟨1, "Room A"⟩])) := by
  unfold ensure_default_room
  cases hh : db.rooms.head? with
  | some r => exact ⟨rfl, rfl, rfl, Or.inl rfl⟩
  | none =>
    have hnil : db.rooms = [] := List.head?_eq_none_iff.1 hh
    exact ⟨rfl, rfl, rfl, Or.inr ⟨hnil, by simp [hnil]⟩⟩

/-- C4 counterexample: the claim says a failing run creates no rows.  (a) On
an empty database, an unknown section id returns 404 — but the run has
already seeded the 45-row default subject catalog.  (b) With a section
whose grade has no eligible subjects and no rooms, the run returns 400 —
but has already created the default room. -/
theorem C4_counterexample :
    ((auto_generate_schedule ⟨[], [], [], []⟩ (some 1) false).1
        = GenResult.err 404 "Section not found" ∧
      ((auto_generate_schedule ⟨[], [], [], []⟩ (some 1) false).2).subjects.length
        = 45) ∧
    ((auto_generate_schedule
          ⟨[⟨1, "X", "Core", "SHS", "", some 11, some 12, none⟩], [],
           [⟨1, "S1", "JHS", "Grade 7", ""⟩], []⟩ (some 1) false).1
        = GenResult.err 400 "No subjects available for section grade" ∧
      ((auto_generate_schedule
          ⟨[⟨1, "X", "Core", "SHS", "", some 11, some 12, none⟩], [],
           [⟨1, "S1", "JHS", "Grade 7", ""⟩], []⟩ (some 1) false).2).rooms
        = [⟨1, "Room A"⟩]) := by
  refine ⟨⟨?_, ?_⟩, ?_, ?_⟩ <;> decide

/-- C4 (amended): on every input-error path (missing section id, unknown
section id, no eligible subjects) the endpoint aborts before the commit, so
the persisted schedule entries and sections are unchanged — a missing
section id changes nothing at all — but the failing run may still create
catalog rows: it seeds the default subject catalog when the subject table
is empty, and creates the default room when no room exists. -/
theorem C4_input_error_state (db : Db) (section_id : Option Nat) (sat : Bool) :
    (section_id = none →
      auto_generate_schedule db section_id sat
        = (.err 400 "section_id is required", db)) ∧
    (∀ s m, (auto_generate_schedule db section_id sat).1 = .err s m →
      ((auto_generate_schedule db section_id sat).2).schedules = db.schedules ∧
      ((auto_generate_schedule db section_id sat).2).sections = db.sections ∧
      (((auto_generate_schedule db section_id sat).2).subjects = db.subjects ∨
        (db.subjects = [] ∧
          ((auto_generate_schedule db section_id sat).2).subjects
            = seed_subjects_data db.subjects)) ∧
      (((auto_generate_schedule db section_id sat).2).rooms = db.rooms ∨
        (db.rooms = [] ∧
          ((auto_generate_schedule db section_id sat).2).rooms
            = [⟨1, "Room A"⟩]))) := by
  obtain ⟨h1sch, h1sec, h1rm, h1sub⟩ := ensure_subjects_catalog_fields db
  cases section_id with
  | none =>
    refine ⟨fun _ => rfl, fun s m h => ⟨rfl, rfl, Or.inl rfl, Or.inl rfl⟩⟩
  | some sid =>
    refine ⟨fun h => by simp at h, ?_⟩
    intro s m h
    unfold auto_generate_schedule at h ⊢
    cases hfind : (ensure_subjects_catalog db).sections.find?
        (fun s => s.id == sid) with
    | none =>
      simp only [hfind]
      exact ⟨h1sch, h1sec, h1sub, Or.inl h1rm⟩
    | some sec =>
      obtain ⟨h2sch, h2sec, h2sub, h2rm⟩ :=
        ensure_default_room_fields (ensure_subjects_catalog db)
      simp only [hfind] at h ⊢
      by_cases hemp : (subjects_for_section
          ((ensure_default_room (ensure_subjects_catalog db)).1).subjects
          sec).isEmpty = true
      · simp only [hemp, if_true]
        refine ⟨h2sch.trans h1sch, h2sec.trans h1sec, ?_, ?_⟩
        · rw [h2sub]
          exact h1sub
        · rcases h2rm with h2 | ⟨hempty, h2⟩
          · rw [h2]
            exact Or.inl h1rm
          · exact Or.inr ⟨h1rm ▸ hempty, h2⟩
      · simp only [hemp, if_false] at h
        exact absurd h (by simp)

/-- C4 witness: the amended statement applied to a missing section id and to
an unknown section id on an empty database. -/
theorem C4_input_error_state_witness :
    (auto_generate_schedule ⟨[], [], [], []⟩ none false
      = (.err 400 "section_id is required", ⟨[], [], [], []⟩)) ∧
    (((auto_generate_schedule ⟨[], [], [], []⟩ (some 1) false).2).schedules
        = (⟨[], [], [], []⟩ : Db).schedules ∧
      ((auto_generate_schedule ⟨[], [], [], []⟩ (some 1) false).2).sections
        = (⟨[], [], [], []⟩ : Db).sections ∧
      (((auto_generate_schedule ⟨[], [], [], []⟩ (some 1) false).2).subjects
          = (⟨[], [], [], []⟩ : Db).subjects ∨
        ((⟨[], [], [], []⟩ : Db).subjects = [] ∧
          ((auto_generate_schedule ⟨[], [], [], []⟩ (some 1) false).2).subjects
            = seed_subjects_data (⟨[], [], [], []⟩ : Db).subjects)) ∧
      (((auto_generate_schedule ⟨[], [], [], []⟩ (some 1) false).2).rooms
          = (⟨[], [], [], []⟩ : Db).rooms ∨
        ((⟨[], [], [], []⟩ : Db).rooms = [] ∧
          ((auto_generate_schedule ⟨[], [], [], []⟩ (some 1) false).2).rooms
            = [⟨1, "Room A"⟩]))) :=
  ⟨(C4_input_error_state ⟨[], [], [], []⟩ none false).1 rfl,
   (C4_input_error_state ⟨[], [], [], []⟩ (some 1) false).2 404
     "Section not found" (by decide)⟩
